import Mathlib

/-!
Verification of the crowd-flow simulation kernel (TypeScript sources:
`ui/src/sim/engine.ts`, `ui/src/utils/astar.ts`, `ui/src/utils/math.ts`,
`ui/src/utils/spatialHash.ts`, `ui/src/models/types.ts`).

Shallow embedding conventions:
* JS numbers are modelled as rationals (ℚ).  The transcendental functions
  the source calls (`Math.sqrt`, `Math.exp`, `Math.log`, `Math.cos`, the
  constant `Math.PI`) have no exact rational counterpart, so they are
  supplied as parameters of the model (`MathO`).  Every theorem below is
  proved for all values of these parameters, hence in particular for
  the real functions the source uses.  `Math.random` is modelled as an
  indexed stream `randF : ℕ → ℚ` with the stream position threaded
  through the engine state.
* JS arrays become `List`, `Map` becomes an insertion-ordered
  association list, unbounded `while` loops become fuel-indexed
  recursion (the fuel is a model parameter; exhausting it yields the
  source's not-found behaviour).
* Mutation is modelled by explicit state passing, preserving the
  source's evaluation order.
-/

/-- Model parameters for the irrational pieces of JS `Math` plus the
ambient random stream and loop fuel (see the file header). -/
structure MathO where
  sqrt : ℚ → ℚ
  exp : ℚ → ℚ
  log : ℚ → ℚ
  cos : ℚ → ℚ
  pi : ℚ
  sqrt2 : ℚ
  randF : ℕ → ℚ
  fuel : ℕ

/-- World-space point (`models/types.ts`, interface Vec2). -/
structure Vec2 where
  x : ℚ
  y : ℚ
deriving DecidableEq, Repr

/-- Axis-aligned rectangle (`models/types.ts`, interface Rect). -/
structure Rect where
  x : ℚ
  y : ℚ
  w : ℚ
  h : ℚ
deriving DecidableEq, Repr

namespace v2

/-- Source `v2.clamp` (`utils/math.ts`): `Math.max(lo, Math.min(hi, v))`. -/
def clamp (v lo hi : ℚ) : ℚ := max lo (min hi v)

/-- Source `v2.dist2` (`utils/math.ts`). -/
def dist2 (a b : Vec2) : ℚ := (a.x - b.x) ^ 2 + (a.y - b.y) ^ 2

/-- Source `v2.dist` (`utils/math.ts`); `Math.sqrt` comes from the model. -/
def dist (o : MathO) (a b : Vec2) : ℚ := o.sqrt ((a.x - b.x) ^ 2 + (a.y - b.y) ^ 2)

end v2

/-- Read `grid[r][c]` for a 2-D boolean list, out-of-range reads giving
`false` (JS `undefined` is falsy, as in `passable[r]?.[c]`). -/
def bcell (g : List (List Bool)) (r c : ℕ) : Bool :=
  (g.getD r []).getD c false

/-- Read `grid[r][c]` for a 2-D rational list, out-of-range reads giving 0. -/
def qcell (g : List (List ℚ)) (r c : ℕ) : ℚ :=
  (g.getD r []).getD c 0

/-- Write `list[i] = v`; out-of-range writes are dropped (never taken by
the embedded code, which always writes in range). -/
def setNth : List α → ℕ → α → List α
  | [], _, _ => []
  | _ :: xs, 0, v => v :: xs
  | x :: xs, n + 1, v => x :: setNth xs n v

/-- Write `grid[r][c] = v` on a 2-D list. -/
def setCell (g : List (List α)) (r c : ℕ) (v : α) : List (List α) :=
  setNth g r (setNth (g.getD r []) c v)

/-- Pointwise function update, used for the A* score arrays. -/
def fup (f : ℕ → α) (i : ℕ) (v : α) : ℕ → α :=
  fun j => if j = i then v else f j

-- ─── A* planner (`utils/astar.ts`) ──────────────────────────────────────────

/-- The `1e9` sentinel the source uses for unvisited scores. -/
def INF : ℚ := 1000000000

/-- Grid-cell centre `toWorld(r, c)` of `astar`. -/
def toWorld (cellSize : ℚ) (r c : ℕ) : Vec2 :=
  ⟨((c : ℚ) + 0.5) * cellSize, ((r : ℚ) + 0.5) * cellSize⟩

/-- Row clamp of `toGrid` in `astar`:
`Math.max(0, Math.min(rows - 1, Math.floor(w.y / cellSize)))`. -/
def toGridIdx (n : ℕ) (coord cellSize : ℚ) : ℕ :=
  (max 0 (min ((n : ℤ) - 1) ⌊coord / cellSize⌋)).toNat

/-- Goal-cell repair loop of `astar` (lines 38–50): scan the 7×7 window
`dr, dc ∈ [-3, 3]` in row-major order carrying `(best, gr, gc, found)`;
`best = none` stands for the initial `Infinity`, and once `found` is set
both loops stop (modelled by the body becoming a no-op). -/
def repairGoal (passable : List (List Bool)) (rows cols : ℕ) (gr0 gc0 : ℕ) :
    ℕ × ℕ :=
  let offs : List ℤ := [-3, -2, -1, 0, 1, 2, 3]
  let step := fun (st : Option ℤ × ℕ × ℕ × Bool) (d : ℤ × ℤ) =>
    let (best, _, _, found) := st
    if found then st
    else
      let nr : ℤ := (gr0 : ℤ) + d.1
      let nc : ℤ := (gc0 : ℤ) + d.2
      if 0 ≤ nr ∧ nr < (rows : ℤ) ∧ 0 ≤ nc ∧ nc < (cols : ℤ) ∧
          bcell passable nr.toNat nc.toNat then
        let dsq := d.1 * d.1 + d.2 * d.2
        if best.all (fun b => dsq < b) then (some dsq, nr.toNat, nc.toNat, true)
        else st
      else st
  let fin := ((offs.map (fun dr => offs.map (fun dc => (dr, dc)))).flatten).foldl
    step (none, gr0, gc0, false)
  (fin.2.1, fin.2.2.1)

/-- Mutable state of the A* search loop (the score arrays, parent
pointers, open list and membership flags of `astar`). -/
structure AStarSt where
  gScore : ℕ → ℚ
  fScore : ℕ → ℚ
  cameFrom : ℕ → ℤ
  openList : List ℕ
  inOpen : ℕ → Bool

/-- Euclidean heuristic of `astar`: `Math.sqrt((r-gr)^2 + (c-gc)^2)`. -/
def heuristic (o : MathO) (gr gc r c : ℕ) : ℚ :=
  o.sqrt ((((r : ℤ) - gr) ^ 2 + ((c : ℤ) - gc) ^ 2 : ℤ) : ℚ)

/-- The 8 neighbour directions with step costs of `astar`
(`1.414` is the source's literal). -/
def astarDirs : List (ℤ × ℤ × ℚ) :=
  [(-1, 0, 1), (1, 0, 1), (0, -1, 1), (0, 1, 1),
   (-1, -1, 1.414), (-1, 1, 1.414), (1, -1, 1.414), (1, 1, 1.414)]

/-- Extract-min scan of `astar`: linear scan for the open node of least
`fScore`, returning `(minI, minPos)`; mirrors the source's
initialisation `minF = INF, minI = 0, minPos = 0` and strict `<`. -/
def extractMin (fS : ℕ → ℚ) (l : List ℕ) : ℕ × ℕ :=
  let fin := l.enum.foldl
    (fun (st : ℚ × ℕ × ℕ) (p : ℕ × ℕ) =>
      if fS p.2 < st.1 then (fS p.2, p.2, p.1) else st)
    (INF, 0, 0)
  (fin.2.1, fin.2.2)

/-- Neighbour relaxation of the A* inner loop for one direction. -/
def relax (o : MathO) (passable : List (List Bool)) (rows cols gr gc minI : ℕ)
    (st : AStarSt) (d : ℤ × ℤ × ℚ) : AStarSt :=
  let cr := minI / cols
  let cc := minI % cols
  let nr : ℤ := (cr : ℤ) + d.1
  let nc : ℤ := (cc : ℤ) + d.2.1
  if nr < 0 ∨ (rows : ℤ) ≤ nr ∨ nc < 0 ∨ (cols : ℤ) ≤ nc then st
  else if ¬ bcell passable nr.toNat nc.toNat then st
  else
    let ni := nr.toNat * cols + nc.toNat
    let tentG := st.gScore minI + d.2.2
    if tentG < st.gScore ni then
      { gScore := fup st.gScore ni tentG
        fScore := fup st.fScore ni (tentG + heuristic o gr gc nr.toNat nc.toNat)
        cameFrom := fup st.cameFrom ni (minI : ℤ)
        openList := if st.inOpen ni then st.openList else st.openList ++ [ni]
        inOpen := fup st.inOpen ni true }
    else st

/-- The `while (open.length > 0)` search loop of `astar`, fuel-indexed;
returns whether the goal index was extracted, plus the final state. -/
def astarLoop (o : MathO) (passable : List (List Bool)) (rows cols gr gc : ℕ) :
    ℕ → AStarSt → Bool × AStarSt
  | 0, st => (false, st)
  | fuel + 1, st =>
    if st.openList.isEmpty then (false, st)
    else
      let (minI, minPos) := extractMin st.fScore st.openList
      let st1 := { st with openList := st.openList.eraseIdx minPos }
      if minI = gr * cols + gc then (true, st1)
      else
        let st2 := astarDirs.foldl (relax o passable rows cols gr gc minI) st1
        astarLoop o passable rows cols gr gc fuel st2

/-- Path reconstruction loop of `astar`: walk `cameFrom` from the goal
index back to (exclusive) the start index, collecting cell centres.
Fuel-indexed; the source's loop terminates whenever the search found the
goal, which is the only case in which this is called. -/
def reconstructLoop (cameFrom : ℕ → ℤ) (si cols : ℕ) (cellSize : ℚ) :
    ℕ → ℕ → List Vec2
  | 0, _ => []
  | fuel + 1, cur =>
    if cur = si then []
    else toWorld cellSize (cur / cols) (cur % cols) ::
      reconstructLoop cameFrom si cols cellSize fuel (cameFrom cur).toNat

/-- Straight-line pruning `simplifyPath` of `utils/astar.ts`: keep the
first point, drop middle points whose adjacent segments have
near-zero cross product, and append the original last point.  The
accumulator is kept reversed so its head is the last kept point. -/
def simplifyPath (path : List Vec2) : List Vec2 :=
  if path.length ≤ 2 then path
  else
    match path with
    | [] => []
    | p0 :: _ =>
      let acc := ((path.drop 1).zip (path.drop 2)).foldl
        (fun (acc : List Vec2) (cn : Vec2 × Vec2) =>
          let prev := acc.headD p0
          let curr := cn.1
          let next := cn.2
          let cross := (curr.x - prev.x) * (next.y - prev.y) -
            (curr.y - prev.y) * (next.x - prev.x)
          if 0.1 < |cross| then curr :: acc else acc)
        [p0]
      acc.reverse ++ [path.getLastD p0]

/-- The A* planner `astar` of `utils/astar.ts`. -/
def astar (o : MathO) (passable : List (List Bool))
    (startWorld goalWorld : Vec2) (cellSize : ℚ) : List Vec2 :=
  let rows := passable.length
  if rows = 0 then [goalWorld]
  else
    let cols := (passable.headD []).length
    let sgr := toGridIdx rows startWorld.y cellSize
    let sgc := toGridIdx cols startWorld.x cellSize
    let ggr := toGridIdx rows goalWorld.y cellSize
    let ggc := toGridIdx cols goalWorld.x cellSize
    if ¬ bcell passable sgr sgc then [goalWorld]
    else
      let g := if bcell passable ggr ggc then (ggr, ggc)
        else repairGoal passable rows cols ggr ggc
      let gr := g.1
      let gc := g.2
      if sgr = gr ∧ sgc = gc then [goalWorld]
      else
        let si := sgr * cols + sgc
        let st0 : AStarSt :=
          { gScore := fup (fun _ => INF) si 0
            fScore := fup (fun _ => INF) si (heuristic o gr gc sgr sgc)
            cameFrom := fun _ => -1
            openList := [si]
            inOpen := fup (fun _ => false) si true }
        let res := astarLoop o passable rows cols gr gc o.fuel st0
        if ¬ res.1 then [goalWorld]
        else
          let chain := reconstructLoop res.2.cameFrom si cols cellSize o.fuel
            (gr * cols + gc)
          simplifyPath (chain.reverse ++ [goalWorld])

/-- The grid builder `buildPassableGrid` of `utils/astar.ts`. -/
def buildPassableGrid (venueW venueH : ℚ) (walls : List Rect) (cellSize : ℚ) :
    List (List Bool) :=
  let cols := (⌈venueW / cellSize⌉).toNat
  let rows := (⌈venueH / cellSize⌉).toNat
  let base : List (List Bool) :=
    (List.range rows).map (fun _ => (List.range cols).map (fun _ => true))
  walls.foldl
    (fun g wall =>
      let c0 := (max 0 ⌊wall.x / cellSize⌋).toNat
      let c1 := (min ((cols : ℤ) - 1) ⌊(wall.x + wall.w) / cellSize⌋)
      let r0 := (max 0 ⌊wall.y / cellSize⌋).toNat
      let r1 := (min ((rows : ℤ) - 1) ⌊(wall.y + wall.h) / cellSize⌋)
      if r1 < r0 ∨ c1 < (c0 : ℤ) then g
      else
        (List.range (r1.toNat - r0 + 1)).foldl
          (fun g i =>
            (List.range (c1.toNat - c0 + 1)).foldl
              (fun g j => setCell g (r0 + i) (c0 + j) false) g)
          g)
    base

-- ─── Math utilities (`utils/math.ts`) ───────────────────────────────────────

/-- Draw one `Math.random()` value from the ambient stream, advancing
the stream position. -/
def drawRand (o : MathO) (rk : ℕ) : ℚ × ℕ := (o.randF rk, rk + 1)

/-- The `while (u === 0) u = Math.random()` loop of `randNormal`,
fuel-indexed (the source would loop forever on an all-zero stream,
which cannot arise from a real PRNG). -/
def drawNonzero (o : MathO) : ℕ → ℕ → ℚ × ℕ
  | 0, rk => (o.randF rk, rk + 1)
  | f + 1, rk =>
    let u := o.randF rk
    if u = 0 then drawNonzero o f (rk + 1) else (u, rk + 1)

/-- Box–Muller sampler `randNormal` of `utils/math.ts`. -/
def randNormal (o : MathO) (mean std : ℚ) (rk : ℕ) : ℚ × ℕ :=
  let u := drawNonzero o o.fuel rk
  let v := drawNonzero o o.fuel u.2
  (mean + std * o.sqrt (-2 * o.log u.1) * o.cos (2 * o.pi * v.1), v.2)

/-- The erf approximation of `utils/math.ts`. -/
def erf (o : MathO) (x : ℚ) : ℚ :=
  let a1 : ℚ := 0.254829592
  let a2 : ℚ := -0.284496736
  let a3 : ℚ := 1.421413741
  let a4 : ℚ := -1.453152027
  let a5 : ℚ := 1.061405429
  let p : ℚ := 0.3275911
  let sign : ℚ := if x < 0 then -1 else 1
  let xa := |x|
  let t := 1 / (1 + p * xa)
  let y := 1 - (((((a5 * t + a4) * t) + a3) * t + a2) * t + a1) * t * o.exp (-xa * xa)
  sign * y

/-- Gaussian arrival curve `gaussianCDF` of `utils/math.ts`
(`Math.SQRT2` is a model parameter). -/
def gaussianCDF (o : MathO) (t mean sigma : ℚ) : ℚ :=
  let z := (t - mean) / (sigma * o.sqrt2)
  0.5 * (1 + erf o z)

/-- Source `closestPointOnRect` of `utils/math.ts`; returns
`(cx, cy, dist2)`. -/
def closestPointOnRect (px py rx ry rw rh : ℚ) : ℚ × ℚ × ℚ :=
  let cx := max rx (min (rx + rw) px)
  let cy := max ry (min (ry + rh) py)
  (cx, cy, (px - cx) ^ 2 + (py - cy) ^ 2)

/-- Source `percentile` of `utils/math.ts`:
`idx = Math.max(0, Math.ceil((p / 100) * n) - 1)`. -/
def percentile (sorted : List ℚ) (p : ℚ) : ℚ :=
  if sorted.length = 0 then 0
  else sorted.getD (max 0 (⌈(p / 100) * (sorted.length : ℚ)⌉ - 1)).toNat 0

/-- Integer range `[a, a+1, …, b]`, empty when `b < a`; models JS
`for (i = a; i <= b; i++)`. -/
def intRange (a b : ℤ) : List ℤ :=
  (List.range (b + 1 - a).toNat).map (fun i => a + (i : ℤ))

-- ─── Spatial hash (`utils/spatialHash.ts`) ──────────────────────────────────

/-- Lookup in an insertion-ordered association list with integer keys
(models JS `Map<number, _>.get`). -/
def zalGet (m : List (ℤ × α)) (k : ℤ) : Option α :=
  (m.find? (fun p => p.1 = k)).map (·.2)

/-- Insertion-ordered association-list update (models JS
`Map<number, _>.set`: replace in place, or append a new key). -/
def zalSet : List (ℤ × α) → ℤ → α → List (ℤ × α)
  | [], k, v => [(k, v)]
  | p :: ps, k, v => if p.1 = k then (k, v) :: ps else p :: zalSet ps k v

/-- The `SpatialHash` class: buckets keyed by the source's pairing
`cx * 100003 + cy`. -/
structure SpatialHash where
  cells : List (ℤ × List ℕ)
  cellSize : ℚ

namespace SpatialHash

/-- Bucket key `cx * 100003 + cy`. -/
def key (cx cy : ℤ) : ℤ := cx * 100003 + cy

/-- Cell coordinate `Math.floor(v / cellSize)`. -/
def cellOf (h : SpatialHash) (v : ℚ) : ℤ := ⌊v / h.cellSize⌋

/-- `insert(id, x, y)`: append the id to its bucket. -/
def insert (h : SpatialHash) (id : ℕ) (x y : ℚ) : SpatialHash :=
  let k := key (h.cellOf x) (h.cellOf y)
  let l := (zalGet h.cells k).getD []
  { h with cells := zalSet h.cells k (l ++ [id]) }

/-- `query(x, y, radius)`: concatenate the buckets in a
`⌈radius / cellSize⌉` halo around `(x, y)`. -/
def query (h : SpatialHash) (x y radius : ℚ) : List ℕ :=
  let r := ⌈radius / h.cellSize⌉
  (intRange (h.cellOf x - r) (h.cellOf x + r)).foldl
    (fun acc cx =>
      (intRange (h.cellOf y - r) (h.cellOf y + r)).foldl
        (fun acc cy => acc ++ ((zalGet h.cells (key cx cy)).getD []))
        acc)
    []

end SpatialHash

-- ─── Data model (`models/types.ts`) ─────────────────────────────────────────

/-- Agent FSM states (`models/types.ts`, type AgentState). -/
inductive AgentState
  | seeking_attractor
  | queuing
  | at_attractor
  | seeking_exit
  | evacuating
  | exited
deriving DecidableEq, Repr

/-- Venue wall (`models/types.ts`). -/
structure Wall where
  id : String
  rect : Rect
deriving DecidableEq, Repr

/-- Venue entrance (`models/types.ts`). -/
structure Entrance where
  id : String
  x : ℚ
  y : ℚ
  width : ℚ
deriving DecidableEq, Repr

/-- Venue exit (`models/types.ts`, interface Exit; renamed to avoid the
Lean keyword landscape). -/
structure ExitDoor where
  id : String
  x : ℚ
  y : ℚ
  width : ℚ
  capacity : ℚ
deriving DecidableEq, Repr

/-- Venue attractor (`models/types.ts`). -/
structure Attractor where
  id : String
  x : ℚ
  y : ℚ
  radius : ℚ
  weight : ℚ
  label : String
  serviceTime : ℚ
  queueEnabled : Bool
  queueCapacity : ℚ
deriving DecidableEq, Repr

/-- Venue layout (`models/types.ts`). -/
structure VenueLayout where
  width : ℚ
  height : ℚ
  walls : List Wall
  entrances : List Entrance
  exits : List ExitDoor
  attractors : List Attractor
deriving DecidableEq, Repr

/-- Arrival modes (`models/types.ts`). -/
inductive ArrivalMode
  | burst
  | linear
  | gaussian
deriving DecidableEq, Repr

/-- Simulation configuration (`models/types.ts`).  Note it contains no
RNG seed field. -/
structure SimConfig where
  N : ℚ
  arrivalMode : ArrivalMode
  arrivalDuration : ℚ
  speedMin : ℚ
  speedMean : ℚ
  speedMax : ℚ
  personalSpace : ℚ
  avoidanceStrength : ℚ
  queueEnabled : Bool
  evacuationEnabled : Bool
  evacuationTime : ℚ
  panicSpeedMultiplier : ℚ
  densityWarning : ℚ
  densityDanger : ℚ
  cellSize : ℚ
  egresTimeLimitMin : ℚ
  warningTimeLimitPct : ℚ
  sweepStep : ℚ
  sweepMinN : ℚ
  sweepMaxN : ℚ
deriving DecidableEq, Repr

/-- Agent record (`models/types.ts`). -/
structure Agent where
  id : ℕ
  x : ℚ
  y : ℚ
  vx : ℚ
  vy : ℚ
  radius : ℚ
  speed : ℚ
  state : AgentState
  targetAttractorId : Option String
  targetExitId : Option String
  path : List Vec2
  pathIndex : ℕ
  spawnTime : ℚ
  exitTime : ℚ
  atAttractorUntil : ℚ
  stuckTimer : ℚ
deriving DecidableEq, Repr

/-- Firefighter record (internal to `engine.ts`). -/
structure Firefighter where
  id : ℕ
  x : ℚ
  y : ℚ
  vx : ℚ
  vy : ℚ
  path : List Vec2
  pathIndex : ℕ
  targetCell : Option (ℕ × ℕ)
  extinguishTimer : ℚ
deriving DecidableEq, Repr

/-- Lookup in an insertion-ordered association list with string keys
(models JS `Map<string, _>.get`). -/
def alGet (m : List (String × α)) (k : String) : Option α :=
  (m.find? (fun p => p.1 = k)).map (·.2)

/-- Insertion-ordered association-list update with string keys (models
JS `Map<string, _>.set`). -/
def alSet : List (String × α) → String → α → List (String × α)
  | [], k, v => [(k, v)]
  | p :: ps, k, v => if p.1 = k then (k, v) :: ps else p :: alSet ps k v

-- ─── Engine state (`sim/engine.ts`, class SimEngine) ────────────────────────

/-- The full mutable state of `SimEngine`, plus the ambient
`Math.random` stream position `rk` (a model device).  `agentMap` is not
a separate field: it always mirrors `agents`, and lookups are modelled
by searching `agents` by id.  The spatial hash is rebuilt from scratch
inside every tick, so only its construction-time cell size
(`cfg.personalSpace * 2` of the constructor's config) is kept. -/
structure EngineState where
  layout : VenueLayout
  cfg : SimConfig
  agents : List Agent
  simTime : ℚ
  isRunning : Bool
  isEvacuating : Bool
  passable : List (List Bool)
  hashCellSize : ℚ
  peakDensity : ℚ
  timeAboveWarning : ℚ
  timeAboveDanger : ℚ
  egressTimes : List ℚ
  queues : List (String × List ℕ)
  queueServiced : List (String × ℚ)
  fireGrid : List (List Bool)
  fireSpread : List (List ℚ)
  smokeGrid : List (List ℚ)
  fireCellCount : ℤ
  hasSmoke : Bool
  fireCols : ℕ
  fireRows : ℕ
  fireStartTime : ℚ
  blockedExits : List String
  firefighters : List Firefighter
  firefightersSpawned : Bool
  spawnedCount : ℕ
  totalToSpawn : ℚ
  entranceWeights : List ℚ
  nextId : ℕ
  ffNextId : ℕ
  rk : ℕ

-- Social-force and fire constants of `engine.ts` (source names in
-- comments).
def tauC : ℚ := 0.5            -- TAU
def aAgentC : ℚ := 2.0         -- A_AGENT
def bAgentC : ℚ := 0.15        -- B_AGENT
def aWallC : ℚ := 3.0          -- A_WALL
def bWallC : ℚ := 0.1          -- B_WALL
def stuckTimeC : ℚ := 2.5      -- STUCK_TIME
def fireSpreadRateC : ℚ := 0.18   -- FIRE_SPREAD_RATE
def fireRepulsionC : ℚ := 10.0    -- FIRE_REPULSION
def fireRepDecayC : ℚ := 0.4      -- FIRE_REP_DECAY
def smokeDiffuseC : ℚ := 0.06     -- SMOKE_DIFFUSE
def smokeDecayC : ℚ := 0.018      -- SMOKE_DECAY
def ffResponseDelayC : ℚ := 30    -- FF_RESPONSE_DELAY
def ffCountC : ℕ := 3             -- FF_COUNT
def ffSpeedC : ℚ := 1.6           -- FF_SPEED
def ffExtinguishTC : ℚ := 1.5     -- FF_EXTINGUISH_T

-- ─── Engine private helpers (`sim/engine.ts`) ───────────────────────────────

/-- Reallocate the fire, spread and smoke grids (`clearFire`). -/
def clearFire (s : EngineState) : EngineState :=
  { s with
    fireGrid := (List.range s.fireRows).map
      (fun _ => (List.range s.fireCols).map (fun _ => false))
    fireSpread := (List.range s.fireRows).map
      (fun _ => (List.range s.fireCols).map (fun _ => (0 : ℚ)))
    smokeGrid := (List.range s.fireRows).map
      (fun _ => (List.range s.fireCols).map (fun _ => (0 : ℚ)))
    fireCellCount := 0
    hasSmoke := false }

/-- Rebuild grids, entrance weights and queue maps (`rebuild`);
`ASTAR_CELL = 1.0`. -/
def rebuild (s : EngineState) : EngineState :=
  let passable := buildPassableGrid s.layout.width s.layout.height
    (s.layout.walls.map (·.rect)) 1
  let s := { s with passable
                    fireRows := passable.length
                    fireCols := (passable.headD []).length }
  let s := clearFire s
  let n := s.layout.entrances.length
  let s := { s with entranceWeights :=
    if n > 0 then s.layout.entrances.map (fun _ => 1 / (n : ℚ)) else [] }
  { s with
    queues := s.layout.attractors.foldl (fun m a => alSet m a.id []) []
    queueServiced := s.layout.attractors.foldl (fun m a => alSet m a.id 0) [] }

/-- The `SimEngine` constructor: record the config, build the spatial
hash with cell size `cfg.personalSpace * 2`, and `rebuild()`.  `rk` is
the ambient random-stream position at construction time. -/
def SimEngine.new (layout : VenueLayout) (cfg : SimConfig) (rk : ℕ) : EngineState :=
  rebuild
    { layout := layout, cfg := cfg, agents := [], simTime := 0
      isRunning := false, isEvacuating := false, passable := []
      hashCellSize := cfg.personalSpace * 2
      peakDensity := 0, timeAboveWarning := 0, timeAboveDanger := 0
      egressTimes := [], queues := [], queueServiced := []
      fireGrid := [], fireSpread := [], smokeGrid := []
      fireCellCount := 0, hasSmoke := false, fireCols := 0, fireRows := 0
      fireStartTime := -1, blockedExits := [], firefighters := []
      firefightersSpawned := false, spawnedCount := 0, totalToSpawn := 0
      entranceWeights := [], nextId := 0, ffNextId := 0, rk := rk }

/-- `reset()`. -/
def reset (s : EngineState) : EngineState :=
  let s :=
    { s with agents := [], simTime := 0, isRunning := false
             isEvacuating := false, peakDensity := 0, timeAboveWarning := 0
             timeAboveDanger := 0, egressTimes := [], spawnedCount := 0
             queues := [], queueServiced := [], blockedExits := []
             nextId := 0, totalToSpawn := s.cfg.N }
  let s := rebuild s
  let s := clearFire s
  { s with firefighters := [], firefightersSpawned := false
           fireStartTime := -1, ffNextId := 0 }

/-- `start()`. -/
def start (s : EngineState) : EngineState := { s with isRunning := true }

/-- `pause()`. -/
def pause (s : EngineState) : EngineState := { s with isRunning := false }

/-- `agentById` (the `agentMap` lookup; the map always mirrors the
`agents` array, so the model searches the list for the first agent with
the given id). -/
def agentById (s : EngineState) (id : ℕ) : Option Agent :=
  s.agents.find? (fun a => a.id = id)

/-- Replace the first agent carrying `id` (the object the map lookup
aliases) by `na`. -/
def updateAgentInList : List Agent → ℕ → Agent → List Agent
  | [], _, _ => []
  | a :: rest, id, na =>
    if a.id = id then na :: rest else a :: updateAgentInList rest id na

/-- `nearestExitPos`: closest open exit by squared distance (falling
back to all exits when every exit is blocked); returns the goal point
and the `targetExitId` the source assigns to the agent. -/
def nearestExitPos (s : EngineState) (a : Agent) : Vec2 × Option String :=
  match s.layout.exits with
  | [] => (⟨s.layout.width / 2, s.layout.height / 2⟩, a.targetExitId)
  | e0 :: _ =>
    let candidates := s.layout.exits.filter
      (fun ex => ¬ s.blockedExits.contains ex.id)
    let pool := if candidates.length > 0 then candidates else s.layout.exits
    let first := pool.headD e0
    let best := pool.foldl
      (fun (st : ExitDoor × ℚ) ex =>
        let d := v2.dist2 ⟨a.x, a.y⟩ ⟨ex.x, ex.y⟩
        if d < st.2 then (ex, d) else st)
      (first, v2.dist2 ⟨a.x, a.y⟩ ⟨first.x, first.y⟩)
    (⟨best.1.x, best.1.y⟩, some best.1.id)

/-- `computePath`: plan with A* toward the target attractor (when in
`seeking_attractor` with a target) or the nearest exit, resetting
`pathIndex`; `ASTAR_CELL = 1`. -/
def computePath (o : MathO) (s : EngineState) (a : Agent) : Agent :=
  let gt : Vec2 × Option String :=
    if a.state = .seeking_attractor ∧ a.targetAttractorId.isSome then
      match a.targetAttractorId.bind
        (fun tid => s.layout.attractors.find? (fun att => att.id = tid)) with
      | some att => (⟨att.x, att.y⟩, a.targetExitId)
      | none => nearestExitPos s a
    else nearestExitPos s a
  { a with path := astar o s.passable ⟨a.x, a.y⟩ gt.1 1
           pathIndex := 0
           targetExitId := gt.2 }

/-- `q.splice(q.indexOf(id), 1)` when present: drop the first
occurrence of `id`. -/
def removeFirst : List ℕ → ℕ → List ℕ
  | [], _ => []
  | x :: xs, id => if x = id then xs else x :: removeFirst xs id

/-- Remove `id` from every queue (the queue-leaving loop of
`triggerEvacuation`). -/
def removeFromAllQueues (qs : List (String × List ℕ)) (id : ℕ) :
    List (String × List ℕ) :=
  qs.map (fun p => (p.1, removeFirst p.2 id))

/-- The agent-loop body of `triggerEvacuation`, threading the queue
maps and the rebuilt agent list.  `s` is the engine state with the
evacuating flag already set (the loop body reads only fields the loop
does not mutate). -/
def evacFoldStep (o : MathO) (s : EngineState)
    (st : List (String × List ℕ) × List Agent) (a : Agent) :
    List (String × List ℕ) × List Agent :=
  if a.state = .exited then (st.1, st.2 ++ [a])
  else if a.state = .at_attractor ∨ a.state = .seeking_attractor ∨
      a.state = .queuing then
    let qs := removeFromAllQueues st.1 a.id
    let a := computePath o s
      { a with state := .evacuating, targetAttractorId := none }
    (qs, st.2 ++ [{ a with speed := a.speed * s.cfg.panicSpeedMultiplier }])
  else
    (st.1, st.2 ++ [{ a with speed := a.speed * s.cfg.panicSpeedMultiplier }])

/-- `triggerEvacuation`: set the evacuating flag; agents in
`at_attractor`, `seeking_attractor` or `queuing` leave their queue,
enter `evacuating` with the attractor target cleared and re-plan;
every non-exited agent gets its speed multiplied by
`panicSpeedMultiplier`. -/
def triggerEvacuation (o : MathO) (s : EngineState) : EngineState :=
  let s := { s with isEvacuating := true }
  let fin := s.agents.foldl (evacFoldStep o s) (s.queues, [])
  { s with queues := fin.1, agents := fin.2 }

/-- `startFire(wx, wy)`: ignite the cell under the point when it is in
range and passable, record the first-fire time, and trigger evacuation
unless already evacuating. -/
def startFire (o : MathO) (s : EngineState) (wx wy : ℚ) : EngineState :=
  let c := ⌊wx⌋
  let r := ⌊wy⌋
  if 0 ≤ r ∧ r < (s.fireRows : ℤ) ∧ 0 ≤ c ∧ c < (s.fireCols : ℤ) ∧
      bcell s.passable r.toNat c.toNat then
    let s :=
      if ¬ bcell s.fireGrid r.toNat c.toNat then
        { s with fireGrid := setCell s.fireGrid r.toNat c.toNat true
                 fireCellCount := s.fireCellCount + 1 }
      else s
    let s := if s.fireStartTime < 0 then { s with fireStartTime := s.simTime } else s
    if ¬ s.isEvacuating then triggerEvacuation o s else s
  else s

/-- `setBlockedExits(ids)`: replace the blocked set and re-plan agents
in exit-seeking states whose target exit just became blocked. -/
def setBlockedExits (o : MathO) (s : EngineState) (ids : List String) : EngineState :=
  let s := { s with blockedExits := ids }
  { s with agents := s.agents.map (fun a =>
      if (a.state = .seeking_exit ∨ a.state = .evacuating) ∧
          a.targetExitId.any (fun t => s.blockedExits.contains t) then
        computePath o s { a with targetExitId := none }
      else a) }

/-- `spreadSmoke(dt)`: burning cells are pinned at 1.0; other cells
gather inflow from their 4 in-range neighbours and decay.  The source
copies `smokeGrid` into `next` and overwrites every `(r, c)` with
`r < fireRows, c < fireCols`; since `clearFire` keeps all three grids at
exactly `fireRows × fireCols`, rebuilding by ranges is the same map. -/
def spreadSmoke (dt : ℚ) (s : EngineState) : EngineState :=
  let dirs : List (ℤ × ℤ) := [(-1, 0), (1, 0), (0, -1), (0, 1)]
  let next := (List.range s.fireRows).map (fun r =>
    (List.range s.fireCols).map (fun c =>
      if bcell s.fireGrid r c then (1 : ℚ)
      else
        let inflow := dirs.foldl (fun acc d =>
          let nr := (r : ℤ) + d.1
          let nc := (c : ℤ) + d.2
          if 0 ≤ nr ∧ nr < (s.fireRows : ℤ) ∧ 0 ≤ nc ∧ nc < (s.fireCols : ℤ) then
            acc + qcell s.smokeGrid nr.toNat nc.toNat * smokeDiffuseC * dt
          else acc) 0
        min 1 (qcell s.smokeGrid r c + inflow) * (1 - smokeDecayC * dt)))
  { s with smokeGrid := next
           hasSmoke := next.any (fun row => row.any (fun v => v > 0.01)) }

/-- `spreadFire(dt)`: scan burning cells in row-major order, bump each
passable non-burning 4-neighbour's accumulator, collecting cells whose
accumulator reached 1 (reset to 0) for ignition after the scan. -/
def spreadFire (dt : ℚ) (s : EngineState) : EngineState :=
  let dirs : List (ℤ × ℤ) := [(-1, 0), (1, 0), (0, -1), (0, 1)]
  let fin := (List.range s.fireRows).foldl (fun st r =>
    (List.range s.fireCols).foldl (fun (st : List (List ℚ) × List (ℕ × ℕ)) c =>
      if ¬ bcell s.fireGrid r c then st
      else dirs.foldl (fun st d =>
        let nr := (r : ℤ) + d.1
        let nc := (c : ℤ) + d.2
        if nr < 0 ∨ (s.fireRows : ℤ) ≤ nr ∨ nc < 0 ∨ (s.fireCols : ℤ) ≤ nc then st
        else if bcell s.fireGrid nr.toNat nc.toNat ∨
            ¬ bcell s.passable nr.toNat nc.toNat then st
        else
          let v := qcell st.1 nr.toNat nc.toNat + dt * fireSpreadRateC
          if 1 ≤ v then (setCell st.1 nr.toNat nc.toNat 0, st.2 ++ [(nr.toNat, nc.toNat)])
          else (setCell st.1 nr.toNat nc.toNat v, st.2)) st) st)
    (s.fireSpread, [])
  let ign := fin.2.foldl
    (fun (p : List (List Bool) × ℤ) rc => (setCell p.1 rc.1 rc.2 true, p.2 + 1))
    (s.fireGrid, s.fireCellCount)
  { s with fireSpread := fin.1, fireGrid := ign.1, fireCellCount := ign.2 }

-- ─── Firefighters (`sim/engine.ts`, tickFirefighters and helpers) ───────────

/-- The firefighter wall push-out of `tickFirefighters` (radius 0.3),
same shortest-axis logic as `resolveWallCollisions`. -/
def ffWallPush (walls : List Wall) (ff : Firefighter) : Firefighter :=
  walls.foldl
    (fun ff wall =>
      let wr := wall.rect
      let rad : ℚ := 0.3
      if ff.x + rad > wr.x ∧ ff.x - rad < wr.x + wr.w ∧
          ff.y + rad > wr.y ∧ ff.y - rad < wr.y + wr.h then
        let oL := (ff.x + rad) - wr.x
        let oR := (wr.x + wr.w) - (ff.x - rad)
        let oT := (ff.y + rad) - wr.y
        let oB := (wr.y + wr.h) - (ff.y - rad)
        let m := min (min oL oR) (min oT oB)
        if m = oL then { ff with x := ff.x - oL, vx := min 0 ff.vx }
        else if m = oR then { ff with x := ff.x + oR, vx := max 0 ff.vx }
        else if m = oT then { ff with y := ff.y - oT, vy := min 0 ff.vy }
        else { ff with y := ff.y + oB, vy := max 0 ff.vy }
      else ff)
    ff

/-- `findNearestFireCell(x, y)`: row-major scan for the burning cell of
least squared distance to `(x, y)`; `none` models the initial
`best = null, bestD2 = Infinity`. -/
def findNearestFireCell (s : EngineState) (x y : ℚ) : Option (ℕ × ℕ) :=
  let fin := (List.range s.fireRows).foldl (fun st r =>
    (List.range s.fireCols).foldl (fun (st : Option ((ℕ × ℕ) × ℚ)) c =>
      if ¬ bcell s.fireGrid r c then st
      else
        let d2 := (x - ((c : ℚ) + 0.5)) ^ 2 + (y - ((r : ℚ) + 0.5)) ^ 2
        match st with
        | none => some ((r, c), d2)
        | some (_, bd) => if d2 < bd then some ((r, c), d2) else st) st)
    none
  fin.map (·.1)

/-- `spawnFirefighters`: FF_COUNT firefighters at entrances cycled
round-robin, with a half-width jitter from the ambient stream. -/
def spawnFirefighters (o : MathO) (s : EngineState) : EngineState :=
  if s.layout.entrances.length = 0 then s
  else
    (List.range ffCountC).foldl
      (fun s i =>
        let ent := s.layout.entrances.getD (i % s.layout.entrances.length)
          ⟨"", 0, 0, 0⟩
        let u := drawRand o s.rk
        { s with
          firefighters := s.firefighters ++
            [{ id := s.ffNextId
               x := ent.x + (u.1 - 0.5) * ent.width * 0.5
               y := ent.y, vx := 0, vy := 0
               path := [], pathIndex := 0
               targetCell := none, extinguishTimer := 0 }]
          ffNextId := s.ffNextId + 1
          rk := u.2 })
      s

/-- The per-firefighter body of `tickFirefighters`, threading the
engine state (for the grids) and the rebuilt firefighter list. -/
def tickOneFF (o : MathO) (dt : ℚ) (st : EngineState × List Firefighter)
    (ff : Firefighter) : EngineState × List Firefighter :=
  let s := st.1
  let acc := st.2
  if ff.extinguishTimer > 0 then
    let ff := { ff with extinguishTimer := ff.extinguishTimer - dt
                        vx := ff.vx * 0.8, vy := ff.vy * 0.8 }
    match ff.targetCell with
    | some rc =>
      if ff.extinguishTimer ≤ 0 then
        let r := rc.1
        let c := rc.2
        let s :=
          if bcell s.fireGrid r c then
            { s with fireGrid := setCell s.fireGrid r c false
                     fireCellCount := s.fireCellCount - 1
                     fireSpread := setCell s.fireSpread r c 0 }
          else s
        let offs : List (ℤ × ℤ) :=
          [(-1, -1), (-1, 0), (-1, 1), (0, -1), (0, 1), (1, -1), (1, 0), (1, 1)]
        let s := offs.foldl (fun s d =>
          let nr := (r : ℤ) + d.1
          let nc := (c : ℤ) + d.2
          if nr < 0 ∨ (s.fireRows : ℤ) ≤ nr ∨ nc < 0 ∨ (s.fireCols : ℤ) ≤ nc then s
          else
            let s :=
              if bcell s.fireGrid nr.toNat nc.toNat ∧
                  qcell s.fireSpread nr.toNat nc.toNat < 0.6 then
                { s with fireGrid := setCell s.fireGrid nr.toNat nc.toNat false
                         fireCellCount := s.fireCellCount - 1 }
              else s
            { s with fireSpread := setCell s.fireSpread nr.toNat nc.toNat 0 }) s
        (s, acc ++ [{ ff with targetCell := none }])
      else (s, acc ++ [ff])
    | none => (s, acc ++ [ff])
  else
    let needNew : Bool :=
      match ff.targetCell with
      | none => true
      | some tc => ¬ bcell s.fireGrid tc.1 tc.2
    if needNew ∧ (findNearestFireCell s ff.x ff.y).isNone then
      (s, acc ++ [{ ff with vx := ff.vx * 0.9, vy := ff.vy * 0.9 }])
    else
      let ff :=
        if needNew then
          match findNearestFireCell s ff.x ff.y with
          | some cell =>
            { ff with targetCell := some cell
                      path := astar o s.passable ⟨ff.x, ff.y⟩
                        ⟨(cell.2 : ℚ) + 0.5, (cell.1 : ℚ) + 0.5⟩ 1
                      pathIndex := 0 }
          | none => ff
        else ff
      if ff.pathIndex ≥ ff.path.length then
        let ff := { ff with vx := ff.vx * 0.5, vy := ff.vy * 0.5 }
        let ff :=
          if ff.targetCell.isSome then { ff with extinguishTimer := ffExtinguishTC }
          else ff
        (s, acc ++ [ff])
      else
        let wp := ff.path.getD ff.pathIndex ⟨0, 0⟩
        let dx := wp.x - ff.x
        let dy := wp.y - ff.y
        let dist := o.sqrt (dx * dx + dy * dy)
        let ff :=
          if dist < 0.6 then { ff with pathIndex := ff.pathIndex + 1 }
          else
            let ax := ((dx / dist) * ffSpeedC - ff.vx) / 0.3
            let ay := ((dy / dist) * ffSpeedC - ff.vy) / 0.3
            let vx := ff.vx + ax * dt
            let vy := ff.vy + ay * dt
            let spd := o.sqrt (vx ^ 2 + vy ^ 2)
            if spd > ffSpeedC then
              { ff with vx := vx * (ffSpeedC / spd), vy := vy * (ffSpeedC / spd) }
            else { ff with vx := vx, vy := vy }
        let ff := { ff with x := ff.x + ff.vx * dt, y := ff.y + ff.vy * dt }
        let ff := { ff with x := v2.clamp ff.x 0.5 (s.layout.width - 0.5)
                            y := v2.clamp ff.y 0.5 (s.layout.height - 0.5) }
        (s, acc ++ [ffWallPush s.layout.walls ff])

/-- `tickFirefighters(dt)`: spawn after the response delay, then step
each firefighter in order. -/
def tickFirefighters (o : MathO) (dt : ℚ) (s : EngineState) : EngineState :=
  let s :=
    if ¬ s.firefightersSpawned ∧ 0 ≤ s.fireStartTime ∧
        s.simTime - s.fireStartTime ≥ ffResponseDelayC then
      { spawnFirefighters o s with firefightersSpawned := true }
    else s
  let fin := s.firefighters.foldl (tickOneFF o dt) (s, [])
  { fin.1 with firefighters := fin.2 }

-- ─── Spawning (`sim/engine.ts`, spawnAgents / spawnOneAgent) ────────────────

/-- The weighted-draw loop of `pickAttractor`, with the queue-full
`continue` keeping the accumulated weight. -/
def pickAttractorLoop (s : EngineState) (r : ℚ) :
    List Attractor → ℚ → Option String
  | [], _ => none
  | att :: rest, acc =>
    let acc := acc + att.weight
    if r ≤ acc then
      if s.cfg.queueEnabled ∧ att.queueEnabled then
        let q := (alGet s.queues att.id).getD []
        let served := (alGet s.queueServiced att.id).getD 0
        if (q.length : ℚ) + served ≥ att.queueCapacity then
          pickAttractorLoop s r rest acc
        else some att.id
      else some att.id
    else pickAttractorLoop s r rest acc

/-- `pickAttractor`: weighted random draw over the attractors, skipping
full queues; returns the pick and the new stream position. -/
def pickAttractor (o : MathO) (s : EngineState) : Option String × ℕ :=
  if s.layout.attractors.length = 0 then (none, s.rk)
  else if s.isEvacuating then (none, s.rk)
  else
    let totalWeight := s.layout.attractors.foldl (fun acc a => acc + a.weight) 0
    if totalWeight = 0 then (none, s.rk)
    else
      let u := drawRand o s.rk
      (pickAttractorLoop s (u.1 * totalWeight) s.layout.attractors 0, u.2)

/-- `spawnOneAgent`: random entrance, jittered position, clamped normal
speed, random radius, optional attractor target, initial path. -/
def spawnOneAgent (o : MathO) (s : EngineState) : EngineState :=
  let u0 := drawRand o s.rk
  let ent := s.layout.entrances.getD
    (⌊u0.1 * (s.layout.entrances.length : ℚ)⌋.toNat) ⟨"", 0, 0, 0⟩
  let u1 := drawRand o u0.2
  let x := ent.x + (u1.1 - 0.5) * ent.width * 0.8
  let u2 := drawRand o u1.2
  let y := ent.y + (u2.1 - 0.5) * 0.5
  let sp := randNormal o s.cfg.speedMean ((s.cfg.speedMax - s.cfg.speedMin) / 4) u2.2
  let speed := v2.clamp sp.1 s.cfg.speedMin s.cfg.speedMax
  let pick := pickAttractor o { s with rk := sp.2 }
  let u3 := drawRand o pick.2
  let a0 : Agent :=
    { id := s.nextId, x := x, y := y, vx := 0, vy := 0
      radius := 0.22 + u3.1 * 0.06
      speed := speed
      state := if pick.1.isSome then .seeking_attractor else .seeking_exit
      targetAttractorId := pick.1
      targetExitId := none
      path := [], pathIndex := 0
      spawnTime := s.simTime, exitTime := -1
      atAttractorUntil := -1, stuckTimer := 0 }
  let a := computePath o s a0
  { s with agents := s.agents ++ [a]
           spawnedCount := s.spawnedCount + 1
           nextId := s.nextId + 1
           rk := u3.2 }

/-- `spawnAgents(dt)` (the `dt` argument is unused in the source too):
compute the target arrival fraction for the current mode and spawn the
shortfall.  In the `linear` mode with `arrivalDuration = 0` the source
divides by zero (NaN/Infinity in JS); the ℚ model yields 0 there.  No
claim exercises that corner. -/
def spawnAgents (o : MathO) (s : EngineState) : EngineState :=
  if (s.spawnedCount : ℚ) ≥ s.cfg.N ∨ s.layout.entrances.length = 0 then s
  else
    let durationSec := s.cfg.arrivalDuration * 60
    let targetFraction : ℚ :=
      match s.cfg.arrivalMode with
      | .burst => if s.simTime < 5 then 1 else 1
      | .linear => min 1 (s.simTime / durationSec)
      | .gaussian => gaussianCDF o s.simTime (durationSec * 0.5) (durationSec * 0.2)
    let targetCount := ⌊targetFraction * s.cfg.N⌋
    let toSpawn := max 0 (targetCount - (s.spawnedCount : ℤ))
    (List.range toSpawn.toNat).foldl
      (fun s _ =>
        if (s.spawnedCount : ℚ) < s.cfg.N then spawnOneAgent o s else s)
      s

-- ─── Agent update (`sim/engine.ts`, updateAgent and helpers) ────────────────

/-- `currentWaypoint(agent)`. -/
def currentWaypoint (a : Agent) : Option Vec2 :=
  if a.pathIndex ≥ a.path.length then none else a.path.get? a.pathIndex

/-- `resolveWallCollisions(agent)`: shortest-axis push-out for every
overlapping wall, zeroing the velocity component into the wall.  Ties in
`Math.min` resolve in the source's `if` order (left, right, top,
bottom). -/
def resolveWallCollisions (walls : List Wall) (a : Agent) : Agent :=
  walls.foldl
    (fun a wall =>
      let r := wall.rect
      if a.x + a.radius > r.x ∧ a.x - a.radius < r.x + r.w ∧
          a.y + a.radius > r.y ∧ a.y - a.radius < r.y + r.h then
        let overlapL := (a.x + a.radius) - r.x
        let overlapR := (r.x + r.w) - (a.x - a.radius)
        let overlapT := (a.y + a.radius) - r.y
        let overlapB := (r.y + r.h) - (a.y - a.radius)
        let minOv := min (min overlapL overlapR) (min overlapT overlapB)
        if minOv = overlapL then { a with x := a.x - overlapL, vx := min 0 a.vx }
        else if minOv = overlapR then { a with x := a.x + overlapR, vx := max 0 a.vx }
        else if minOv = overlapT then { a with y := a.y - overlapT, vy := min 0 a.vy }
        else { a with y := a.y + overlapB, vy := max 0 a.vy }
      else a)
    a

/-- The position integration of `updateAgent` (lines 756–761): advance
the position by the integrated velocity and clamp it to the venue
bounds. -/
def integratePosition (width height : ℚ) (dt : ℚ) (a : Agent) : Agent :=
  let a := { a with x := a.x + a.vx * dt, y := a.y + a.vy * dt }
  { a with x := v2.clamp a.x a.radius (width - a.radius)
           y := v2.clamp a.y a.radius (height - a.radius) }

/-- `checkExitArrival(agent)`: in exit-seeking states, the first open
exit within `width/2 + radius + 0.3` absorbs the agent; returns the
(possibly exited) agent and the egress time pushed, if any. -/
def checkExitArrival (o : MathO) (s : EngineState) (a : Agent) :
    Agent × Option ℚ :=
  if a.state ≠ .seeking_exit ∧ a.state ≠ .evacuating then (a, none)
  else
    match s.layout.exits.find? (fun ex =>
      ¬ s.blockedExits.contains ex.id ∧
      v2.dist o ⟨a.x, a.y⟩ ⟨ex.x, ex.y⟩ < ex.width / 2 + a.radius + 0.3) with
    | some _ =>
      ({ a with state := .exited, exitTime := s.simTime }, some (s.simTime - a.spawnTime))
    | none => (a, none)

/-- `onAgentReachedTarget(agent)`: join the queue or start service at
the target attractor, else re-plan toward an exit.  Returns the agent
and the engine state with the queue maps updated. -/
def onAgentReachedTarget (o : MathO) (s : EngineState) (a : Agent) :
    Agent × EngineState :=
  if a.state = .seeking_attractor ∧ a.targetAttractorId.isSome then
    match a.targetAttractorId.bind
      (fun tid => s.layout.attractors.find? (fun att => att.id = tid)) with
    | none => (computePath o s { a with state := .seeking_exit }, s)
    | some att =>
      if s.cfg.queueEnabled ∧ att.queueEnabled then
        let q := (alGet s.queues att.id).getD []
        let q := if q.contains a.id then q else q ++ [a.id]
        ({ a with state := .queuing }, { s with queues := alSet s.queues att.id q })
      else
        let served1 := (alGet s.queueServiced att.id).getD 0 + 1
        ({ a with state := .at_attractor
                  atAttractorUntil := s.simTime + att.serviceTime },
         { s with queueServiced := alSet s.queueServiced att.id served1 })
  else
    (computePath o s { a with state := .seeking_exit }, s)

/-- The social-force sum of `updateAgent`: steering toward the desired
velocity, neighbour repulsion over the spatial-hash query, wall
repulsion, and fire repulsion over a ±6-cell window. -/
def agentForces (o : MathO) (h : SpatialHash) (s : EngineState) (a : Agent)
    (desiredVx desiredVy : ℚ) : ℚ × ℚ :=
  let f0 : ℚ × ℚ := ((desiredVx - a.vx) / tauC, (desiredVy - a.vy) / tauC)
  let neighbours := h.query a.x a.y (a.radius * 6 + 1.5)
  let av := s.cfg.avoidanceStrength
  let f1 := neighbours.foldl
    (fun (f : ℚ × ℚ) nid =>
      if nid = a.id then f
      else
        match agentById s nid with
        | none => f
        | some nb =>
          if nb.state = .exited then f
          else
            let ddx := a.x - nb.x
            let ddy := a.y - nb.y
            let dist := o.sqrt (ddx * ddx + ddy * ddy)
            let minDist := a.radius + nb.radius
            if dist < 1e-6 then f
            else
              let overlap := minDist - dist
              if overlap > -(s.cfg.personalSpace) * 2 then
                let strength := aAgentC * av * o.exp (overlap / bAgentC)
                (f.1 + strength * (ddx / dist), f.2 + strength * (ddy / dist))
              else f)
    f0
  let f2 := s.layout.walls.foldl
    (fun (f : ℚ × ℚ) wall =>
      let cp := closestPointOnRect a.x a.y wall.rect.x wall.rect.y
        wall.rect.w wall.rect.h
      let dist := o.sqrt cp.2.2
      if dist < 1.5 ∧ dist > 1e-6 then
        let strength := aWallC * o.exp ((a.radius - dist) / bWallC)
        (f.1 + strength * (a.x - cp.1) / dist, f.2 + strength * (a.y - cp.2.1) / dist)
      else f)
    f1
  if s.fireRows > 0 then
    let fr := ⌊a.y⌋
    let fc := ⌊a.x⌋
    (intRange (-6) 6).foldl
      (fun f dr =>
        (intRange (-6) 6).foldl
          (fun (f : ℚ × ℚ) dc =>
            let nr := fr + dr
            let nc := fc + dc
            if nr < 0 ∨ (s.fireRows : ℤ) ≤ nr ∨ nc < 0 ∨ (s.fireCols : ℤ) ≤ nc then f
            else if ¬ bcell s.fireGrid nr.toNat nc.toNat then f
            else
              let cx := (nc : ℚ) + 0.5
              let cy := (nr : ℚ) + 0.5
              let ddx := a.x - cx
              let ddy := a.y - cy
              let dist := o.sqrt (ddx * ddx + ddy * ddy)
              if dist < 0.01 then f
              else
                let str1 := fireRepulsionC * o.exp (-dist / fireRepDecayC)
                (f.1 + (ddx / dist) * str1, f.2 + (ddy / dist) * str1))
          f)
      f2
  else f2

/-- The smoke slowdown factor of `updateAgent`:
`max(0.35, 1 - s*0.65)` when the local smoke exceeds 0.15. -/
def smokeFactorAt (s : EngineState) (a : Agent) : ℚ :=
  if s.smokeGrid.length > 0 then
    let sr := ⌊a.y⌋
    let sc := ⌊a.x⌋
    if 0 ≤ sr ∧ sr < (s.fireRows : ℤ) ∧ 0 ≤ sc ∧ sc < (s.fireCols : ℤ) then
      let sv := qcell s.smokeGrid sr.toNat sc.toNat
      if sv > 0.15 then max 0.35 (1 - sv * 0.65) else 1
    else 1
  else 1

/-- The motion block of `updateAgent` (desired velocity under the smoke
factor, social forces, integration with the speed clamp, venue clamp,
wall push-out, stuck detection), producing the moved agent.  `dx`, `dy`
and `distToWP` are the offsets to the waypoint computed before any
waypoint advance, as in the source. -/
def agentMotion (o : MathO) (h : SpatialHash) (dt : ℚ) (s : EngineState)
    (a : Agent) (dx dy distToWP : ℚ) : Agent :=
  let desiredDir : Vec2 :=
    if distToWP > 1e-6 then ⟨dx / distToWP, dy / distToWP⟩ else ⟨0, 0⟩
  let smokeFactor := smokeFactorAt s a
  let desiredVx := desiredDir.x * a.speed * smokeFactor
  let desiredVy := desiredDir.y * a.speed * smokeFactor
  let f := agentForces o h s a desiredVx desiredVy
  let vx := a.vx + f.1 * dt
  let vy := a.vy + f.2 * dt
  let speed := o.sqrt (vx ^ 2 + vy ^ 2)
  let maxSpeed := a.speed * 1.5
  let v : ℚ × ℚ :=
    if speed > maxSpeed then (vx / speed * maxSpeed, vy / speed * maxSpeed)
    else (vx, vy)
  let a := { a with vx := v.1, vy := v.2 }
  let a := integratePosition s.layout.width s.layout.height dt a
  let a := resolveWallCollisions s.layout.walls a
  if speed < 0.05 then
    (if a.stuckTimer + dt > stuckTimeC then
      computePath o s { a with stuckTimer := 0 }
    else { a with stuckTimer := a.stuckTimer + dt })
  else { a with stuckTimer := 0 }

/-- `updateAgent(agent, dt)`: the full per-agent step.  Returns the
updated agent and the engine state carrying any queue/egress side
effects; the caller writes the agent back into its slot. -/
def updateAgent (o : MathO) (h : SpatialHash) (dt : ℚ) (s : EngineState)
    (a : Agent) : Agent × EngineState :=
  if a.state = .at_attractor then
    if s.simTime ≥ a.atAttractorUntil then
      let s :=
        match a.targetAttractorId with
        | some aId =>
          { s with queueServiced :=
              alSet s.queueServiced aId (max 0 ((alGet s.queueServiced aId).getD 1 - 1)) }
        | none => s
      (computePath o s { a with state := .seeking_exit, targetAttractorId := none }, s)
    else (a, s)
  else if a.state = .queuing then
    ({ a with vx := a.vx * 0.8, vy := a.vy * 0.8 }, s)
  else
    match currentWaypoint a with
    | none =>
      let a := { a with state := if s.isEvacuating then .evacuating else .seeking_exit }
      (computePath o s a, s)
    | some waypoint =>
      let dx := waypoint.x - a.x
      let dy := waypoint.y - a.y
      let distToWP := o.sqrt (dx * dx + dy * dy)
      if distToWP < 0.6 ∧ a.pathIndex + 1 ≥ a.path.length then
        onAgentReachedTarget o s { a with pathIndex := a.pathIndex + 1 }
      else
        let a := if distToWP < 0.6 then { a with pathIndex := a.pathIndex + 1 } else a
        let a := agentMotion o h dt s a dx dy distToWP
        let ce := checkExitArrival o s a
        match ce.2 with
        | some eg => (ce.1, { s with egressTimes := s.egressTimes ++ [eg] })
        | none => (ce.1, s)

-- ─── Queues, density, metrics, tick (`sim/engine.ts`) ───────────────────────

/-- `processQueues(dt)` (the `dt` argument is unused in the source
too): for each queue-enabled attractor with a free server slot, shift
the queue head into `at_attractor`. -/
def processQueues (s : EngineState) : EngineState :=
  s.layout.attractors.foldl
    (fun s att =>
      if ¬ att.queueEnabled ∨ ¬ s.cfg.queueEnabled then s
      else
        match alGet s.queues att.id with
        | none => s
        | some q =>
          match q with
          | [] => s
          | nextId1 :: rest =>
            let served := (alGet s.queueServiced att.id).getD 0
            if served < 1 then
              let s := { s with queues := alSet s.queues att.id rest }
              match agentById s nextId1 with
              | none => s
              | some ag =>
                let ag := { ag with state := .at_attractor
                                    atAttractorUntil := s.simTime + att.serviceTime }
                { s with agents := updateAgentInList s.agents nextId1 ag
                         queueServiced := alSet s.queueServiced att.id (served + 1) }
            else s)
    s

/-- `computeDensityGrid()`: per-cell persons/m² over the active agents. -/
def computeDensityGrid (s : EngineState) : List (List ℚ) :=
  let cols := (⌈s.layout.width / s.cfg.cellSize⌉).toNat
  let rows := (⌈s.layout.height / s.cfg.cellSize⌉).toNat
  let base : List (List ℚ) :=
    (List.range rows).map (fun _ => (List.range cols).map (fun _ => (0 : ℚ)))
  s.agents.foldl
    (fun g a =>
      if a.state = .exited then g
      else
        let c := ⌊a.x / s.cfg.cellSize⌋
        let r := ⌊a.y / s.cfg.cellSize⌋
        if 0 ≤ r ∧ r < (rows : ℤ) ∧ 0 ≤ c ∧ c < (cols : ℤ) then
          setCell g r.toNat c.toNat
            (qcell g r.toNat c.toNat + 1 / (s.cfg.cellSize * s.cfg.cellSize))
        else g)
    base

/-- `maxOfGrid(grid)`: running max starting from 0 with strict `>`. -/
def maxOfGrid (g : List (List ℚ)) : ℚ :=
  g.foldl (fun m row => row.foldl (fun m v => if v > m then v else m) m) 0

/-- The density-metrics block at the end of `tick` (lines 207–211):
update the peak and the warning/danger dwell accumulators from the
current density grid, with strict `>` comparisons. -/
def densityMetricsPhase (dt : ℚ) (s : EngineState) : EngineState :=
  let grid := computeDensityGrid s
  let maxDensity := maxOfGrid grid
  let s := if maxDensity > s.peakDensity then { s with peakDensity := maxDensity } else s
  let s :=
    if maxDensity > s.cfg.densityWarning then
      { s with timeAboveWarning := s.timeAboveWarning + dt }
    else s
  if maxDensity > s.cfg.densityDanger then
    { s with timeAboveDanger := s.timeAboveDanger + dt }
  else s

/-- Build the tick's spatial hash over the non-exited agents. -/
def buildHash (s : EngineState) : SpatialHash :=
  s.agents.foldl
    (fun h a => if a.state ≠ .exited then h.insert a.id a.x a.y else h)
    { cells := [], cellSize := s.hashCellSize }

/-- The per-agent update loop of `tick`: iterate the agents array by
index (the array's length is unchanged inside the loop), skipping
exited agents, writing each updated agent back into its slot. -/
def updateAgentsPhase (o : MathO) (h : SpatialHash) (dt : ℚ)
    (s : EngineState) : EngineState :=
  (List.range s.agents.length).foldl
    (fun s i =>
      match s.agents.get? i with
      | none => s
      | some a =>
        if a.state = .exited then s
        else
          let r := updateAgent o h dt s a
          { r.2 with agents := setNth r.2.agents i r.1 })
    s

/-- The evacuation-trigger check at the top of `tick`. -/
def evacCheckPhase (o : MathO) (s : EngineState) : EngineState :=
  if s.cfg.evacuationEnabled ∧ ¬ s.isEvacuating ∧
      s.simTime ≥ s.cfg.evacuationTime * 60 then
    triggerEvacuation o s
  else s

/-- The fire/smoke block of `tick`. -/
def fireSmokePhase (dt : ℚ) (s : EngineState) : EngineState :=
  if s.fireCellCount > 0 then spreadSmoke dt (spreadFire dt s)
  else if s.hasSmoke then spreadSmoke dt s
  else s

/-- The phases of `tick` that precede the density-metrics block, in the
source's order: evacuation check, fire and smoke, firefighters, spawn,
spatial-hash rebuild, per-agent update, queue service. -/
def tickPreMetrics (o : MathO) (dt : ℚ) (s : EngineState) : EngineState :=
  let s := evacCheckPhase o s
  let s := fireSmokePhase dt s
  let s := tickFirefighters o dt s
  let s := spawnAgents o s
  let h := buildHash s
  let s := updateAgentsPhase o h dt s
  processQueues s

/-- `tick(dt)`: no-op when paused; otherwise clamp `dt` to 0.05 and run
the phases in the source's order, finally advancing the clock. -/
def tick (o : MathO) (dt0 : ℚ) (s : EngineState) : EngineState :=
  if ¬ s.isRunning then s
  else
    let dt := min dt0 0.05
    let s := densityMetricsPhase dt (tickPreMetrics o dt s)
    { s with simTime := s.simTime + dt }

/-- Metrics record (`models/types.ts`). -/
structure Metrics where
  simTime : ℚ
  activeAgents : ℕ
  exitedAgents : ℕ
  peakDensity : ℚ
  currentMaxDensity : ℚ
  timeAboveWarning : ℚ
  timeAboveDanger : ℚ
  avgEgressTime : ℚ
  p95EgressTime : ℚ
  queueLengths : List (String × ℕ)
  maxQueueLengths : List (String × ℕ)
deriving DecidableEq, Repr

/-- `getMetrics()`. -/
def getMetrics (s : EngineState) : Metrics :=
  let queueLengths := s.queues.map (fun p => (p.1, p.2.length))
  let sorted := s.egressTimes.mergeSort (fun a b => a ≤ b)
  { simTime := s.simTime
    activeAgents := (s.agents.filter (fun a => a.state ≠ .exited)).length
    exitedAgents := s.egressTimes.length
    peakDensity := s.peakDensity
    currentMaxDensity := maxOfGrid (computeDensityGrid s)
    timeAboveWarning := s.timeAboveWarning
    timeAboveDanger := s.timeAboveDanger
    avgEgressTime :=
      if sorted.length > 0 then sorted.foldl (· + ·) 0 / (sorted.length : ℚ) else 0
    p95EgressTime := percentile sorted 95
    queueLengths := queueLengths
    maxQueueLengths := queueLengths }

/-- Frame snapshot (`models/types.ts`, interface SimFrame; the
firefighter echo keeps only the fields the claims mention). -/
structure SimFrame where
  agents : List Agent
  densityGrid : List (List ℚ)
  gridCols : ℕ
  gridRows : ℕ
  metrics : Metrics
  simTime : ℚ
  isRunning : Bool
  isEvacuating : Bool
  fireGrid : List (List Bool)
  fireCols : ℕ
  fireRows : ℕ
  smokeGrid : List (List ℚ)
  blockedExits : List String
deriving Repr

/-- `getFrame()` (the agent echo keeps the whole agent record; the
source projects out id/position/velocity/radius/state). -/
def getFrame (s : EngineState) : SimFrame :=
  let grid := computeDensityGrid s
  { agents := s.agents.filter (fun a => a.state ≠ .exited)
    densityGrid := grid
    gridRows := grid.length
    gridCols := (grid.headD []).length
    metrics := getMetrics s
    simTime := s.simTime
    isRunning := s.isRunning
    isEvacuating := s.isEvacuating
    fireGrid := s.fireGrid
    fireCols := s.fireCols
    fireRows := s.fireRows
    smokeGrid := s.smokeGrid
    blockedExits := s.blockedExits }

-- ─── Sweep driver (`sim/engine.ts`, runSweep) ───────────────────────────────

/-- Sweep result record (`models/types.ts`). -/
structure SweepResult where
  N : ℚ
  peakDensity : ℚ
  p95EgressTime : ℚ
  timeAboveWarningPct : ℚ
  passed : Bool
deriving DecidableEq, Repr

/-- The N-values loop header of `runSweep`:
`for (n = sweepMinN; n <= sweepMaxN; n += step)`, fuel-indexed (the
source loops forever when `step ≤ 0`; with enough fuel the model equals
the source whenever the loop terminates). -/
def sweepValues (maxN step : ℚ) : ℕ → ℚ → List ℚ
  | 0, _ => []
  | f + 1, n => if n ≤ maxN then n :: sweepValues maxN step f (n + step) else []

/-- The inner tick loop of `runSweep`:
`for (t = 0; t < simDuration; t += DT)` with `DT = 0.05`, breaking once
`t > evacuationSec + 60` and no active agents remain.  The ℚ model
accumulates `t` exactly where the source accumulates binary doubles;
`0.05` is not a dyadic rational, so the float iteration count can
differ from the exact one by a round-off step — no claim depends on
the exact count. -/
def runSweepLoop (o : MathO) (simDuration evacuationSec : ℚ) :
    ℕ → ℚ → EngineState → EngineState
  | 0, _, s => s
  | fuel + 1, t, s =>
    if t < simDuration then
      let s := tick o 0.05 s
      if t > evacuationSec + 60 ∧ (getMetrics s).activeAgents = 0 then s
      else runSweepLoop o simDuration evacuationSec fuel (t + 0.05) s
    else s

/-- One sweep iteration of `runSweep`: fresh engine (the ambient stream
continues at `rk`), reset, start, run, then record the result row.
Returns the row and the stream position after the run. -/
def sweepOne (o : MathO) (layout : VenueLayout) (baseCfg : SimConfig)
    (rk : ℕ) (n : ℚ) : SweepResult × ℕ :=
  let cfg := { baseCfg with N := n
                            evacuationEnabled := true
                            evacuationTime := baseCfg.arrivalDuration + 2 }
  let engine := SimEngine.new layout cfg rk
  let engine := reset engine
  let engine := start engine
  let simDuration := (baseCfg.arrivalDuration + 10) * 60
  let evacuationSec := cfg.evacuationTime * 60
  let steps := (max 0 ⌈simDuration / (5 / 100)⌉).toNat + 1
  let fin := runSweepLoop o simDuration evacuationSec steps 0 engine
  let m := getMetrics fin
  let simTime := fin.simTime
  let timeAboveWarningPct :=
    if simTime > 0 then m.timeAboveWarning / simTime * 100 else 0
  let passed :=
    decide (m.peakDensity ≤ baseCfg.densityDanger) &&
    decide (m.p95EgressTime / 60 ≤ baseCfg.egresTimeLimitMin) &&
    decide (timeAboveWarningPct ≤ baseCfg.warningTimeLimitPct)
  ({ N := n
     peakDensity := m.peakDensity
     p95EgressTime := m.p95EgressTime / 60
     timeAboveWarningPct := timeAboveWarningPct
     passed := passed }, fin.rk)

/-- `runSweep(layout, baseCfg)` (the `onProgress` callback is pure UI
and has no effect on the returned rows). -/
def runSweep (o : MathO) (layout : VenueLayout) (baseCfg : SimConfig)
    (rk0 : ℕ) : List SweepResult :=
  let values := sweepValues baseCfg.sweepMaxN baseCfg.sweepStep o.fuel
    baseCfg.sweepMinN
  (values.foldl
    (fun (st : List SweepResult × ℕ) n =>
      let r := sweepOne o layout baseCfg st.2 n
      (st.1 ++ [r.1], r.2))
    ([], rk0)).1

-- ─── Concrete fixtures used by the closed theorems below ────────────────────

/-- A concrete model-parameter bundle for closed evaluations.  The code
paths those evaluations take either never consult the transcendental
functions or only feed their outputs into values the stated facts do
not depend on. -/
def o0 : MathO :=
  { sqrt := fun _ => 0, exp := fun _ => 0, log := fun _ => 0
    cos := fun _ => 0, pi := 0, sqrt2 := 0, randF := fun _ => 0, fuel := 200 }

/-- `o0` with the ambient `Math.random` stream pinned at 1/2. -/
def o2 : MathO := { o0 with randF := fun _ => 1 / 2 }

/-- A fully open 2×2 passable grid. -/
def grid2 : List (List Bool) := [[true, true], [true, true]]

/-- A 7×7 grid whose only passable cells are (0,0) and (3,4). -/
def grid7 : List (List Bool) :=
  [[true, false, false, false, false, false, false],
   [false, false, false, false, false, false, false],
   [false, false, false, false, false, false, false],
   [false, false, false, false, true, false, false],
   [false, false, false, false, false, false, false],
   [false, false, false, false, false, false, false],
   [false, false, false, false, false, false, false]]

/-- A 10×10 venue with one entrance, one exit, no walls, no attractors. -/
def layout0 : VenueLayout :=
  { width := 10, height := 10, walls := []
    entrances := [{ id := "ent", x := 1/2, y := 5, width := 1 }]
    exits := [{ id := "door", x := 19/2, y := 5, width := 1, capacity := 1 }]
    attractors := [] }

/-- A 2×2 venue (4 grid cells) for cheap spawn evaluations. -/
def layoutS : VenueLayout :=
  { width := 2, height := 2, walls := []
    entrances := [{ id := "ent", x := 1/2, y := 1/2, width := 1 }]
    exits := [{ id := "door", x := 3/2, y := 3/2, width := 1, capacity := 1 }]
    attractors := [] }

/-- A concrete baseline configuration. -/
def cfg0 : SimConfig :=
  { N := 10, arrivalMode := .linear, arrivalDuration := 2
    speedMin := 4/5, speedMean := 13/10, speedMax := 9/5
    personalSpace := 1/2, avoidanceStrength := 1
    queueEnabled := true, evacuationEnabled := false
    evacuationTime := 5, panicSpeedMultiplier := 3/2
    densityWarning := 2, densityDanger := 4, cellSize := 1
    egresTimeLimitMin := 5, warningTimeLimitPct := 10
    sweepStep := 1, sweepMinN := 5, sweepMaxN := 5 }

-- ─── Invariant predicates and statement helpers ─────────────────────────────

/-- The per-agent effect of `triggerEvacuation` (the body of its agent
loop, which does not read the queues): exited agents are untouched;
agents at/seeking/queuing for an attractor enter `evacuating`, lose the
attractor target and re-plan; every non-exited agent's speed is
multiplied by `panicSpeedMultiplier`. -/
def evacAgentStep (o : MathO) (s : EngineState) (a : Agent) : Agent :=
  if a.state = .exited then a
  else if a.state = .at_attractor ∨ a.state = .seeking_attractor ∨
      a.state = .queuing then
    let a1 := computePath o s { a with state := .evacuating, targetAttractorId := none }
    { a1 with speed := a1.speed * s.cfg.panicSpeedMultiplier }
  else { a with speed := a.speed * s.cfg.panicSpeedMultiplier }

/-- The agent states `triggerEvacuation` transitions (attractor-bound
or queued). -/
def evacTransitions (a : Agent) : Prop :=
  a.state = .at_attractor ∨ a.state = .seeking_attractor ∨ a.state = .queuing

instance (a : Agent) : Decidable (evacTransitions a) := by
  unfold evacTransitions
  infer_instance

/-- Book-keeping invariant 3 of the spec (§8): active agents plus
recorded egress times account for every spawn. -/
def countEqInv (s : EngineState) : Prop :=
  (s.agents.filter (fun a => a.state ≠ .exited)).length + s.egressTimes.length
    = s.spawnedCount

/-- Every id stored in a queue belongs only to `queuing` agents. -/
def queueOKInv (s : EngineState) : Prop :=
  ∀ p ∈ s.queues, ∀ id ∈ p.2, ∀ a ∈ s.agents, a.id = id → a.state = .queuing

/-- Total number of occurrences of `id` across all attractor queues. -/
def queueCount (qs : List (String × List ℕ)) (id : ℕ) : ℕ :=
  (qs.map (fun p => p.2.count id)).sum

/-- Queue membership is exclusive: no queued id appears twice across
(or inside) the attractor queues. -/
def queueUniqInv (s : EngineState) : Prop :=
  ∀ p ∈ s.queues, ∀ id ∈ p.2, queueCount s.queues id ≤ 1

/-- Queued ids come from agents handed out by the id counter. -/
def queueIdsBoundInv (s : EngineState) : Prop :=
  ∀ p ∈ s.queues, ∀ id ∈ p.2, id < s.nextId

/-- Agent ids are pairwise distinct and below the id counter. -/
def idsOKInv (s : EngineState) : Prop :=
  (s.agents.map (fun a => a.id)).Nodup ∧ ∀ a ∈ s.agents, a.id < s.nextId

/-- The conjunction of the book-keeping invariants the kernel
maintains (established by `reset` and preserved by every tick). -/
def engineWF (s : EngineState) : Prop :=
  countEqInv s ∧ queueOKInv s ∧ queueUniqInv s ∧ queueIdsBoundInv s ∧ idsOKInv s

-- ─── Additional concrete fixtures ───────────────────────────────────────────

/-- A freshly started engine on the small venue (ambient stream at 0). -/
def eSpawn : EngineState := start (reset (SimEngine.new layoutS cfg0 0))

/-- A freshly started engine on the 10×10 venue. -/
def eFire : EngineState := start (reset (SimEngine.new layout0 cfg0 0))

/-- `eFire` right after `startFire(5, 5)` and before any tick. -/
def eC6 : EngineState := startFire o0 eFire 5 5

/-- A queue-enabled attractor fixture. -/
def attC9 : Attractor :=
  { id := "bar", x := 1/2, y := 1/2, radius := 1/2, weight := 1, label := "bar"
    serviceTime := 10, queueEnabled := true, queueCapacity := 5 }

/-- Config for the density-threshold scenario: warning threshold 1,
queue service disabled by config. -/
def cfgC9 : SimConfig := { cfg0 with N := 0, densityWarning := 1, queueEnabled := false }

/-- A 1×1-metre venue holding the attractor. -/
def layC9 : VenueLayout :=
  { width := 1, height := 1, walls := [], entrances := []
    exits := [{ id := "door", x := 1/2, y := 1/2, width := 1, capacity := 1 }]
    attractors := [attC9] }

/-- A queued agent sitting in the single density cell. -/
def agC9 : Agent :=
  { id := 0, x := 1/2, y := 1/2, vx := 0, vy := 0, radius := 1/4, speed := 1
    state := .queuing, targetAttractorId := some "bar", targetExitId := none
    path := [], pathIndex := 0, spawnTime := 0, exitTime := -1
    atAttractorUntil := -1, stuckTimer := 0 }

/-- Engine whose single cell carries density exactly equal to the
warning threshold. -/
def eC9 : EngineState :=
  { start (reset (SimEngine.new layC9 cfgC9 0)) with
      agents := [agC9], spawnedCount := 1, nextId := 1
      queues := [("bar", [0])] }

/-- A wall flush against the right venue border (x from 9 to 10 in a
10-metre-wide venue). -/
def wallC8 : Wall := { id := "w", rect := { x := 9, y := 0, w := 1, h := 10 } }

/-- An agent pressed against that wall at the clamp boundary. -/
def aC8 : Agent :=
  { id := 0, x := 39/4, y := 5, vx := 0, vy := 0, radius := 1/4, speed := 1
    state := .seeking_exit, targetAttractorId := none, targetExitId := none
    path := [], pathIndex := 0, spawnTime := 0, exitTime := -1
    atAttractorUntil := -1, stuckTimer := 0 }

/-- An agent in `seeking_exit` (as spawned when no attractor is
chosen), used against `triggerEvacuation`. -/
def agC1 : Agent :=
  { id := 0, x := 1, y := 5, vx := 0, vy := 0, radius := 1/4, speed := 1
    state := .seeking_exit, targetAttractorId := none, targetExitId := some "door"
    path := [⟨19/2, 5⟩], pathIndex := 0, spawnTime := 0, exitTime := -1
    atAttractorUntil := -1, stuckTimer := 0 }

/-- A running engine holding `agC1`. -/
def eC1 : EngineState :=
  { eFire with agents := [agC1], spawnedCount := 1, nextId := 1 }

/-- Sweep config whose negative arrival duration makes the inner loop
run zero ticks (the loop bound is negative), keeping the closed sweep
evaluation small. -/
def cfgW : SimConfig :=
  { cfg0 with arrivalDuration := -12, sweepMinN := 5, sweepMaxN := 5
              densityDanger := 1, egresTimeLimitMin := 1, warningTimeLimitPct := 1 }

/-- The row the sweep records for `cfgW` on the small venue. -/
def resW : SweepResult :=
  { N := 5, peakDensity := 0, p95EgressTime := 0, timeAboveWarningPct := 0
    passed := true }

-- ─── Projections and invariant predicates used by the development ───────────

/-- Fields untouched by the density-metrics block's inputs. -/
def dwellFields (s : EngineState) : ℚ × ℚ × SimConfig :=
  (s.timeAboveWarning, s.timeAboveDanger, s.cfg)

/-- Fire-to-smoke coupling: every in-range burning cell is at smoke 1. -/
def fireSmokeInv (s : EngineState) : Prop :=
  ∀ r < s.fireRows, ∀ c < s.fireCols,
    bcell s.fireGrid r c = true → qcell s.smokeGrid r c = 1

/-- Result state `t` only removed fire relative to `s`, and kept the
smoke grid and grid dimensions. -/
def fireSubset (t s : EngineState) : Prop :=
  t.smokeGrid = s.smokeGrid ∧ t.fireRows = s.fireRows ∧ t.fireCols = s.fireCols ∧
    ∀ r c, bcell t.fireGrid r c = true → bcell s.fireGrid r c = true

/-- The fire-layer fields later tick phases leave untouched. -/
def fireView (s : EngineState) : List (List Bool) × List (List ℚ) × ℕ × ℕ × ℤ :=
  (s.fireGrid, s.smokeGrid, s.fireRows, s.fireCols, s.fireCellCount)

/-- A wall rectangle with non-negative extent lying at least two agent
radii inside the venue border on every side. -/
def wallMargin (width height rad : ℚ) (w : Wall) : Prop :=
  0 ≤ w.rect.w ∧ 0 ≤ w.rect.h ∧
  2 * rad ≤ w.rect.x ∧ w.rect.x + w.rect.w ≤ width - 2 * rad ∧
  2 * rad ≤ w.rect.y ∧ w.rect.y + w.rect.h ≤ height - 2 * rad

/-- The fields the book-keeping invariants read. -/
def bookFields (s : EngineState) :
    List Agent × List ℚ × ℕ × List (String × List ℕ) × ℕ :=
  (s.agents, s.egressTimes, s.spawnedCount, s.queues, s.nextId)

/-- An interior wall (two agent radii away from every border at radius
1/4), for exercising the wall push-out inside the bounds theorem. -/
def wallIn : Wall := { id := "wi", rect := { x := 4, y := 4, w := 1, h := 1 } }

instance (s : EngineState) : Decidable (countEqInv s) := by
  unfold countEqInv
  infer_instance

instance (s : EngineState) : Decidable (queueOKInv s) := by
  unfold queueOKInv
  infer_instance

instance (s : EngineState) : Decidable (queueUniqInv s) := by
  unfold queueUniqInv
  infer_instance

instance (s : EngineState) : Decidable (queueIdsBoundInv s) := by
  unfold queueIdsBoundInv
  infer_instance

instance (s : EngineState) : Decidable (idsOKInv s) := by
  unfold idsOKInv
  infer_instance

instance (s : EngineState) : Decidable (engineWF s) := by
  unfold engineWF
  infer_instance

instance (width height rad : ℚ) (w : Wall) :
    Decidable (wallMargin width height rad w) := by
  unfold wallMargin
  infer_instance

-- ─── Theorems ─────────────────────────────────────────────────────────────


theorem simplifyPath_getLast (p : List Vec2) (h : p ≠ []) :
    (simplifyPath p).getLast? = p.getLast? := by
  unfold simplifyPath
  split
  · rfl
  · match p, h with
    | p0 :: rest, _ =>
      simp only []
      rw [List.getLast?_concat]
      rw [List.getLastD_eq_getLast?]
      cases hq : (p0 :: rest).getLast? with
      | none => exact absurd (List.getLast?_eq_none_iff.mp hq) (by simp)
      | some y => rfl

theorem astar_last (o : MathO) (p : List (List Bool)) (sW gW : Vec2) (cs : ℚ) :
    (astar o p sW gW cs).getLast? = some gW := by
  unfold astar
  dsimp only
  repeat' split
  all_goals first
    | rfl
    | (rw [simplifyPath_getLast _ (by simp)]; exact List.getLast?_concat _)

/-- C10: a `startFire(wx, wy)` call whose cell `(⌊wy⌋, ⌊wx⌋)` is outside
the fire grid or not passable leaves the entire kernel state unchanged:
no fire cell is set, the counters and the fire start time keep their
values, and evacuation is not triggered. -/
theorem C10_startFire_noop (o : MathO) (s : EngineState) (wx wy : ℚ)
    (h : ⌊wy⌋ < 0 ∨ (s.fireRows : ℤ) ≤ ⌊wy⌋ ∨ ⌊wx⌋ < 0 ∨ (s.fireCols : ℤ) ≤ ⌊wx⌋ ∨
      bcell s.passable ⌊wy⌋.toNat ⌊wx⌋.toNat = false) :
    startFire o s wx wy = s := by
  unfold startFire
  rw [if_neg]
  push_neg
  intro h1 h2 h3 h4
  rcases h with h | h | h | h | h
  · omega
  · omega
  · omega
  · omega
  · simp [h]


theorem foldl_preserve {σ α : Type _} (P : σ → Prop) (f : σ → α → σ)
    (h : ∀ st x, P st → P (f st x)) :
    ∀ (l : List α) (st : σ), P st → P (l.foldl f st) := by
  intro l
  induction l with
  | nil => intro st hs; exact hs
  | cons x xs ih => intro st hs; exact ih _ (h st x hs)

theorem foldl_proj {σ α β : Type _} (proj : σ → β) (f : σ → α → σ)
    (h : ∀ st x, proj (f st x) = proj st) :
    ∀ (l : List α) (st : σ), proj (l.foldl f st) = proj st := by
  intro l
  induction l with
  | nil => intro st; rfl
  | cons x xs ih => intro st; rw [List.foldl_cons, ih, h]

theorem foldl_proj' {σ α β : Type _} (proj : σ → β) (f : σ → α → σ)
    (h : ∀ st x, proj (f st x) = proj st) (l : List α) (st : σ) (target : β)
    (hst : proj st = target) : proj (l.foldl f st) = target :=
  (foldl_proj proj f h l st).trans hst

theorem triggerEvacuation_dwell (o : MathO) (s : EngineState) :
    dwellFields (triggerEvacuation o s) = dwellFields s := rfl

theorem evacCheckPhase_dwell (o : MathO) (s : EngineState) :
    dwellFields (evacCheckPhase o s) = dwellFields s := by
  unfold evacCheckPhase; split <;> rfl

theorem fireSmokePhase_dwell (dt : ℚ) (s : EngineState) :
    dwellFields (fireSmokePhase dt s) = dwellFields s := by
  unfold fireSmokePhase spreadSmoke spreadFire
  repeat' split
  all_goals rfl

theorem tickOneFF_dwell (o : MathO) (dt : ℚ) (st : EngineState × List Firefighter)
    (ff : Firefighter) : dwellFields (tickOneFF o dt st ff).1 = dwellFields st.1 := by
  unfold tickOneFF
  dsimp only
  repeat' split
  all_goals first
    | rfl
    | (exact foldl_proj' (fun s => dwellFields s) _
        (by
          intro t x
          dsimp only
          repeat' split
          all_goals rfl) _ _ _ rfl)

theorem spawnFirefighters_dwell (o : MathO) (s : EngineState) :
    dwellFields (spawnFirefighters o s) = dwellFields s := by
  unfold spawnFirefighters
  split
  · rfl
  · exact foldl_proj (fun s => dwellFields s) _ (by intro t x; rfl) _ _

theorem tickFirefighters_dwell (o : MathO) (dt : ℚ) (s : EngineState) :
    dwellFields (tickFirefighters o dt s) = dwellFields s := by
  have hfold : ∀ (l : List Firefighter) (st : EngineState × List Firefighter),
      dwellFields (l.foldl (tickOneFF o dt) st).1 = dwellFields st.1 :=
    foldl_proj (fun st => dwellFields st.1) _ (fun st x => tickOneFF_dwell o dt st x)
  unfold tickFirefighters
  dsimp only
  split
  · exact (hfold _ _).trans (spawnFirefighters_dwell o s)
  · exact (hfold _ _).trans rfl

theorem spawnOneAgent_dwell (o : MathO) (s : EngineState) :
    dwellFields (spawnOneAgent o s) = dwellFields s := rfl

theorem spawnAgents_dwell (o : MathO) (s : EngineState) :
    dwellFields (spawnAgents o s) = dwellFields s := by
  unfold spawnAgents
  repeat' split
  all_goals first
    | rfl
    | (exact foldl_proj (fun s => dwellFields s) _
        (by
          intro t x
          split
          · exact spawnOneAgent_dwell o t
          · rfl) _ _)

theorem onAgentReachedTarget_dwell (o : MathO) (s : EngineState) (a : Agent) :
    dwellFields (onAgentReachedTarget o s a).2 = dwellFields s := by
  unfold onAgentReachedTarget
  dsimp only
  repeat' split
  all_goals rfl

theorem updateAgent_dwell (o : MathO) (h : SpatialHash) (dt : ℚ) (s : EngineState)
    (a : Agent) : dwellFields (updateAgent o h dt s a).2 = dwellFields s := by
  unfold updateAgent
  repeat' split
  all_goals first
    | rfl
    | (exact onAgentReachedTarget_dwell o s _)
    | (dsimp only
       repeat' split
       all_goals first
         | rfl
         | (exact onAgentReachedTarget_dwell o s _))

theorem updateAgentsPhase_dwell (o : MathO) (h : SpatialHash) (dt : ℚ)
    (s : EngineState) : dwellFields (updateAgentsPhase o h dt s) = dwellFields s := by
  unfold updateAgentsPhase
  refine foldl_proj (fun s => dwellFields s) _ ?_ _ _
  intro st i
  repeat' split
  · rfl
  · rfl
  · exact updateAgent_dwell o h dt st _

theorem processQueues_dwell (s : EngineState) :
    dwellFields (processQueues s) = dwellFields s := by
  unfold processQueues
  refine foldl_proj (fun s => dwellFields s) _ ?_ _ _
  intro st x
  dsimp only
  repeat' split
  all_goals rfl

theorem tickPreMetrics_dwell (o : MathO) (dt : ℚ) (s : EngineState) :
    dwellFields (tickPreMetrics o dt s) = dwellFields s := by
  unfold tickPreMetrics
  rw [processQueues_dwell, updateAgentsPhase_dwell, spawnAgents_dwell,
    tickFirefighters_dwell, fireSmokePhase_dwell, evacCheckPhase_dwell]

theorem rowFold_gt (t : ℚ) (l : List ℚ) : ∀ m : ℚ,
    (l.foldl (fun m v => if v > m then v else m) m) > t ↔ m > t ∨ ∃ v ∈ l, v > t := by
  induction l with
  | nil => intro m; simp
  | cons x xs ih =>
    intro m
    rw [List.foldl_cons, ih]
    by_cases hxm : x > m
    · rw [if_pos hxm]
      constructor
      · rintro (h | h)
        · exact Or.inr ⟨x, List.mem_cons_self x xs, h⟩
        · obtain ⟨v, hv, hvt⟩ := h
          exact Or.inr ⟨v, List.mem_cons_of_mem x hv, hvt⟩
      · rintro (h | ⟨v, hv, hvt⟩)
        · exact Or.inl (lt_trans h hxm)
        · rcases List.mem_cons.mp hv with rfl | hv
          · exact Or.inl hvt
          · exact Or.inr ⟨v, hv, hvt⟩
    · rw [if_neg hxm]
      push_neg at hxm
      constructor
      · rintro (h | h)
        · exact Or.inl h
        · obtain ⟨v, hv, hvt⟩ := h
          exact Or.inr ⟨v, List.mem_cons_of_mem x hv, hvt⟩
      · rintro (h | ⟨v, hv, hvt⟩)
        · exact Or.inl h
        · rcases List.mem_cons.mp hv with rfl | hv
          · exact Or.inl (lt_of_lt_of_le hvt hxm)
          · exact Or.inr ⟨v, hv, hvt⟩

theorem maxOfGrid_gt (g : List (List ℚ)) (t : ℚ) (ht : 0 ≤ t) :
    maxOfGrid g > t ↔ ∃ row ∈ g, ∃ v ∈ row, v > t := by
  unfold maxOfGrid
  have main : ∀ m : ℚ,
      (g.foldl (fun m row => row.foldl (fun m v => if v > m then v else m) m) m) > t ↔
      m > t ∨ ∃ row ∈ g, ∃ v ∈ row, v > t := by
    induction g with
    | nil => intro m; simp
    | cons r rs ih =>
      intro m
      rw [List.foldl_cons, ih, rowFold_gt]
      constructor
      · rintro ((h | h) | h)
        · exact Or.inl h
        · exact Or.inr ⟨r, List.mem_cons_self r rs, h⟩
        · obtain ⟨row, hr, hv⟩ := h
          exact Or.inr ⟨row, List.mem_cons_of_mem r hr, hv⟩
      · rintro (h | ⟨row, hr, hv⟩)
        · exact Or.inl (Or.inl h)
        · rcases List.mem_cons.mp hr with rfl | hr
          · exact Or.inl (Or.inr hv)
          · exact Or.inr ⟨row, hr, hv⟩
  rw [main 0]
  simp only [or_iff_right_iff_imp]
  intro h0
  exact absurd (lt_of_le_of_lt ht h0) (lt_irrefl 0)

theorem densityMetricsPhase_warn (dt : ℚ) (s : EngineState) :
    (densityMetricsPhase dt s).timeAboveWarning =
      if maxOfGrid (computeDensityGrid s) > s.cfg.densityWarning then
        s.timeAboveWarning + dt
      else s.timeAboveWarning := by
  unfold densityMetricsPhase
  dsimp only
  split_ifs <;> rfl

theorem densityMetricsPhase_danger (dt : ℚ) (s : EngineState) :
    (densityMetricsPhase dt s).timeAboveDanger =
      if maxOfGrid (computeDensityGrid s) > s.cfg.densityDanger then
        s.timeAboveDanger + dt
      else s.timeAboveDanger := by
  unfold densityMetricsPhase
  dsimp only
  split_ifs <;> rfl

theorem tick_running (o : MathO) (dt0 : ℚ) (s : EngineState)
    (hrun : s.isRunning = true) :
    tick o dt0 s =
      { densityMetricsPhase (min dt0 0.05) (tickPreMetrics o (min dt0 0.05) s) with
          simTime :=
            (densityMetricsPhase (min dt0 0.05) (tickPreMetrics o (min dt0 0.05) s)).simTime +
              min dt0 0.05 } := by
  unfold tick
  rw [if_neg]
  rw [hrun]
  simp

/-- C9: on a running tick the dwell accumulators advance by the clamped
`dt` exactly when some density cell is STRICTLY above the corresponding
threshold (the source compares with `>`, not the claimed `≥`);
otherwise they are unchanged. -/
theorem C9_tick_dwell_strict (o : MathO) (s : EngineState) (dt0 : ℚ)
    (hrun : s.isRunning = true) (hw : 0 ≤ s.cfg.densityWarning)
    (hd : 0 ≤ s.cfg.densityDanger) :
    ((tick o dt0 s).timeAboveWarning =
      if ∃ row ∈ computeDensityGrid (tickPreMetrics o (min dt0 0.05) s), ∃ v ∈ row,
          v > s.cfg.densityWarning
      then s.timeAboveWarning + min dt0 0.05 else s.timeAboveWarning) ∧
    ((tick o dt0 s).timeAboveDanger =
      if ∃ row ∈ computeDensityGrid (tickPreMetrics o (min dt0 0.05) s), ∃ v ∈ row,
          v > s.cfg.densityDanger
      then s.timeAboveDanger + min dt0 0.05 else s.timeAboveDanger) := by
  have hpre := tickPreMetrics_dwell o (min dt0 0.05) s
  have hw1 : (tickPreMetrics o (min dt0 0.05) s).timeAboveWarning = s.timeAboveWarning :=
    congrArg (fun p => p.1) hpre
  have hd1 : (tickPreMetrics o (min dt0 0.05) s).timeAboveDanger = s.timeAboveDanger :=
    congrArg (fun p => p.2.1) hpre
  have hc1 : (tickPreMetrics o (min dt0 0.05) s).cfg = s.cfg :=
    congrArg (fun p => p.2.2) hpre
  rw [tick_running o dt0 s hrun]
  constructor
  · show (densityMetricsPhase (min dt0 0.05) (tickPreMetrics o (min dt0 0.05) s)).timeAboveWarning = _
    rw [densityMetricsPhase_warn, hw1, hc1]
    rw [if_congr (maxOfGrid_gt _ _ hw) rfl rfl]
  · show (densityMetricsPhase (min dt0 0.05) (tickPreMetrics o (min dt0 0.05) s)).timeAboveDanger = _
    rw [densityMetricsPhase_danger, hd1, hc1]
    rw [if_congr (maxOfGrid_gt _ _ hd) rfl rfl]

theorem getD_setNth (v d : α) : ∀ (l : List α) (i j : ℕ),
    (setNth l i v).getD j d = if j = i ∧ i < l.length then v else l.getD j d := by
  intro l
  induction l with
  | nil => intro i j; simp [setNth]
  | cons x xs ih =>
    intro i j
    cases i with
    | zero =>
      cases j with
      | zero => simp [setNth]
      | succ j => simp [setNth, List.getD]
    | succ i =>
      cases j with
      | zero => simp [setNth, List.getD]
      | succ j =>
        simp only [setNth, List.getD_cons_succ, List.length_cons, ih]
        by_cases hj : j = i
        · subst hj
          by_cases hi : j < xs.length
          · rw [if_pos ⟨rfl, hi⟩, if_pos ⟨rfl, by omega⟩]
          · rw [if_neg (by omega), if_neg (by omega)]
        · rw [if_neg (by omega), if_neg (by omega)]

theorem bcell_setCell_false (g : List (List Bool)) (r c r1 c1 : ℕ)
    (h : bcell (setCell g r c false) r1 c1 = true) : bcell g r1 c1 = true := by
  unfold bcell setCell at h
  unfold bcell
  rw [getD_setNth] at h
  by_cases hr : r1 = r ∧ r < g.length
  · rw [if_pos hr] at h
    rw [getD_setNth] at h
    by_cases hc : c1 = c ∧ c < (g.getD r []).length
    · rw [if_pos hc] at h
      exact absurd h (by simp)
    · rw [if_neg hc] at h
      obtain ⟨hr1, _⟩ := hr
      rw [hr1]
      exact h
  · rw [if_neg hr] at h
    exact h

theorem fireSubset_refl (s : EngineState) : fireSubset s s :=
  ⟨rfl, rfl, rfl, fun _ _ h => h⟩

theorem fireSubset_trans {a b c : EngineState}
    (h1 : fireSubset a b) (h2 : fireSubset b c) : fireSubset a c :=
  ⟨h1.1.trans h2.1, h1.2.1.trans h2.2.1, h1.2.2.1.trans h2.2.2.1,
    fun r c1 h => h2.2.2.2 r c1 (h1.2.2.2 r c1 h)⟩

theorem fireSmokeInv_of_subset {t s : EngineState}
    (hsub : fireSubset t s) (hinv : fireSmokeInv s) : fireSmokeInv t := by
  intro r hr c hc hfire
  rw [hsub.1]
  exact hinv r (hsub.2.1 ▸ hr) c (hsub.2.2.1 ▸ hc) (hsub.2.2.2 r c hfire)

theorem getD_range_map (n : ℕ) (f : ℕ → α) (r : ℕ) (d : α) (h : r < n) :
    ((List.range n).map f).getD r d = f r := by
  rw [List.getD_eq_getElem?_getD, List.getElem?_map, List.getElem?_range h]
  rfl

theorem spreadSmoke_inv (dt : ℚ) (s : EngineState) :
    fireSmokeInv (spreadSmoke dt s) := by
  intro r hr c hc hfire
  have hr1 : r < s.fireRows := hr
  have hc1 : c < s.fireCols := hc
  have hfire1 : bcell s.fireGrid r c = true := hfire
  show qcell (spreadSmoke dt s).smokeGrid r c = 1
  unfold spreadSmoke
  dsimp only
  unfold qcell
  rw [getD_range_map _ _ _ _ hr1, getD_range_map _ _ _ _ hc1, if_pos hfire1]

theorem tickOneFF_sub (o : MathO) (dt : ℚ) (st : EngineState × List Firefighter)
    (ff : Firefighter) : fireSubset (tickOneFF o dt st ff).1 st.1 := by
  unfold tickOneFF
  dsimp only
  repeat' split
  all_goals first
    | exact fireSubset_refl _
    | (refine foldl_preserve (fun t => fireSubset t st.1) _ ?_ _ _ ?_
       · intro t x ht
         refine fireSubset_trans ?_ ht
         dsimp only
         repeat' split
         all_goals first
           | exact fireSubset_refl _
           | exact ⟨rfl, rfl, rfl, fun r c h => h⟩
           | exact ⟨rfl, rfl, rfl, fun r c h => bcell_setCell_false _ _ _ _ _ h⟩
       · first
           | exact fireSubset_refl _
           | exact ⟨rfl, rfl, rfl, fun r c h => bcell_setCell_false _ _ _ _ _ h⟩)

theorem spawnFirefighters_fireEq (o : MathO) (s : EngineState) :
    fireSubset (spawnFirefighters o s) s := by
  unfold spawnFirefighters
  split
  · exact fireSubset_refl _
  · refine foldl_preserve (fun t => fireSubset t s) _ ?_ _ _ (fireSubset_refl s)
    intro t x ht
    exact fireSubset_trans ⟨rfl, rfl, rfl, fun r c h => h⟩ ht

theorem tickFirefighters_sub (o : MathO) (dt : ℚ) (s : EngineState) :
    fireSubset (tickFirefighters o dt s) s := by
  have hfold : ∀ (l : List Firefighter) (st : EngineState × List Firefighter),
      fireSubset (l.foldl (tickOneFF o dt) st).1 st.1 := by
    intro l
    induction l with
    | nil => intro st; exact fireSubset_refl _
    | cons x xs ih =>
      intro st
      exact fireSubset_trans (ih _) (tickOneFF_sub o dt st x)
  unfold tickFirefighters
  dsimp only
  split
  · exact fireSubset_trans
      (fireSubset_trans (hfold _ _) ⟨rfl, rfl, rfl, fun r c h => h⟩)
      (spawnFirefighters_fireEq o s)
  · exact fireSubset_trans (hfold _ _) (fireSubset_refl _)

theorem fireSmokeInv_of_view {t s : EngineState}
    (h : fireView t = fireView s) (hinv : fireSmokeInv s) : fireSmokeInv t := by
  have h1 : t.fireGrid = s.fireGrid := congrArg (fun p => p.1) h
  have h2 : t.smokeGrid = s.smokeGrid := congrArg (fun p => p.2.1) h
  have h3 : t.fireRows = s.fireRows := congrArg (fun p => p.2.2.1) h
  have h4 : t.fireCols = s.fireCols := congrArg (fun p => p.2.2.2.1) h
  intro r hr c hc hfire
  rw [h2]
  exact hinv r (h3 ▸ hr) c (h4 ▸ hc) (h1 ▸ hfire)

theorem evacCheckPhase_fire (o : MathO) (s : EngineState) :
    fireView (evacCheckPhase o s) = fireView s := by
  unfold evacCheckPhase; split <;> rfl

theorem spawnAgents_fire (o : MathO) (s : EngineState) :
    fireView (spawnAgents o s) = fireView s := by
  unfold spawnAgents
  repeat' split
  all_goals first
    | rfl
    | (exact foldl_proj (fun s => fireView s) _
        (by
          intro t x
          split
          · rfl
          · rfl) _ _)

theorem onAgentReachedTarget_fire (o : MathO) (s : EngineState) (a : Agent) :
    fireView (onAgentReachedTarget o s a).2 = fireView s := by
  unfold onAgentReachedTarget
  dsimp only
  repeat' split
  all_goals rfl

theorem updateAgent_fire (o : MathO) (h : SpatialHash) (dt : ℚ) (s : EngineState)
    (a : Agent) : fireView (updateAgent o h dt s a).2 = fireView s := by
  unfold updateAgent
  repeat' split
  all_goals first
    | rfl
    | (exact onAgentReachedTarget_fire o s _)
    | (dsimp only
       repeat' split
       all_goals first
         | rfl
         | (exact onAgentReachedTarget_fire o s _))

theorem updateAgentsPhase_fire (o : MathO) (h : SpatialHash) (dt : ℚ)
    (s : EngineState) : fireView (updateAgentsPhase o h dt s) = fireView s := by
  unfold updateAgentsPhase
  refine foldl_proj (fun s => fireView s) _ ?_ _ _
  intro st i
  repeat' split
  · rfl
  · rfl
  · exact updateAgent_fire o h dt st _

theorem processQueues_fire (s : EngineState) :
    fireView (processQueues s) = fireView s := by
  unfold processQueues
  refine foldl_proj (fun s => fireView s) _ ?_ _ _
  intro st x
  dsimp only
  repeat' split
  all_goals rfl

theorem densityMetricsPhase_fire (dt : ℚ) (s : EngineState) :
    fireView (densityMetricsPhase dt s) = fireView s := by
  unfold densityMetricsPhase
  dsimp only
  split_ifs <;> rfl

theorem fireSmokePhase_inv (dt : ℚ) (s : EngineState)
    (hcount : s.fireCellCount ≤ 0 →
      ∀ r < s.fireRows, ∀ c < s.fireCols, bcell s.fireGrid r c = false) :
    fireSmokeInv (fireSmokePhase dt s) := by
  unfold fireSmokePhase
  split
  · exact spreadSmoke_inv dt _
  · split
    · exact spreadSmoke_inv dt s
    · intro r hr c hc hfire
      rw [hcount (by omega) r hr c hc] at hfire
      exact absurd hfire (by simp)

/-- C6: every tick of a running engine re-establishes the fire/smoke
coupling: after the tick, every in-range burning cell has smoke
intensity exactly 1 (given the source's consistency between
`fireCellCount` and the fire grid).  The claim as stated over every
public operation is corrected: `startFire` itself sets fire without
smoke until the next tick. -/
theorem C6_tick_fire_smoke (o : MathO) (s : EngineState) (dt0 : ℚ)
    (hrun : s.isRunning = true)
    (hcount : s.fireCellCount ≤ 0 →
      ∀ r < s.fireRows, ∀ c < s.fireCols, bcell s.fireGrid r c = false) :
    fireSmokeInv (tick o dt0 s) := by
  rw [tick_running o dt0 s hrun]
  set dt := min dt0 0.05 with hdt
  -- the evacuation check keeps the fire layer intact, so the count
  -- hypothesis transports
  have hevac := evacCheckPhase_fire o s
  have hcount1 : (evacCheckPhase o s).fireCellCount ≤ 0 →
      ∀ r < (evacCheckPhase o s).fireRows, ∀ c < (evacCheckPhase o s).fireCols,
        bcell (evacCheckPhase o s).fireGrid r c = false := by
    have e1 : (evacCheckPhase o s).fireGrid = s.fireGrid := congrArg (fun p => p.1) hevac
    have e3 : (evacCheckPhase o s).fireRows = s.fireRows := congrArg (fun p => p.2.2.1) hevac
    have e4 : (evacCheckPhase o s).fireCols = s.fireCols := congrArg (fun p => p.2.2.2.1) hevac
    have e5 : (evacCheckPhase o s).fireCellCount = s.fireCellCount :=
      congrArg (fun p => p.2.2.2.2) hevac
    rw [e1, e3, e4, e5]
    exact hcount
  have hinv1 : fireSmokeInv (fireSmokePhase dt (evacCheckPhase o s)) :=
    fireSmokePhase_inv dt _ hcount1
  have hinv2 : fireSmokeInv (tickFirefighters o dt (fireSmokePhase dt (evacCheckPhase o s))) :=
    fireSmokeInv_of_subset (tickFirefighters_sub o dt _) hinv1
  have hinv3 : fireSmokeInv (tickPreMetrics o dt s) := by
    unfold tickPreMetrics
    refine fireSmokeInv_of_view ?_ hinv2
    rw [processQueues_fire, updateAgentsPhase_fire, spawnAgents_fire]
  have hinv4 : fireSmokeInv (densityMetricsPhase dt (tickPreMetrics o dt s)) :=
    fireSmokeInv_of_view (densityMetricsPhase_fire dt _) hinv3
  intro r hr c hc hfire
  exact hinv4 r hr c hc hfire

theorem clamp_mem (v lo hi : ℚ) (h : lo ≤ hi) :
    lo ≤ v2.clamp v lo hi ∧ v2.clamp v lo hi ≤ hi := by
  unfold v2.clamp
  constructor
  · exact le_max_left _ _
  · exact max_le h (min_le_left _ _)

theorem integratePosition_bounds (width height dt : ℚ) (a : Agent)
    (hw : 2 * a.radius ≤ width) (hh : 2 * a.radius ≤ height) :
    (a.radius ≤ (integratePosition width height dt a).x ∧
      (integratePosition width height dt a).x ≤ width - a.radius) ∧
    (a.radius ≤ (integratePosition width height dt a).y ∧
      (integratePosition width height dt a).y ≤ height - a.radius) ∧
    (integratePosition width height dt a).radius = a.radius := by
  unfold integratePosition
  refine ⟨clamp_mem _ _ _ (by linarith), clamp_mem _ _ _ (by linarith), rfl⟩

theorem resolveWallCollisions_bounds (walls : List Wall) (width height : ℚ)
    (a : Agent) (hrad : 0 ≤ a.radius)
    (hm : ∀ w ∈ walls, wallMargin width height a.radius w)
    (hx : a.radius ≤ a.x ∧ a.x ≤ width - a.radius)
    (hy : a.radius ≤ a.y ∧ a.y ≤ height - a.radius) :
    (a.radius ≤ (resolveWallCollisions walls a).x ∧
      (resolveWallCollisions walls a).x ≤ width - a.radius) ∧
    (a.radius ≤ (resolveWallCollisions walls a).y ∧
      (resolveWallCollisions walls a).y ≤ height - a.radius) ∧
    (resolveWallCollisions walls a).radius = a.radius := by
  unfold resolveWallCollisions
  induction walls generalizing a with
  | nil => exact ⟨hx, hy, rfl⟩
  | cons w ws ih =>
    rw [List.foldl_cons]
    have hmw := hm w (List.mem_cons_self w ws)
    obtain ⟨hw0, hh0, hx1, hx2, hy1, hy2⟩ := hmw
    have hms : ∀ w1 ∈ ws, wallMargin width height a.radius w1 :=
      fun w1 h1 => hm w1 (List.mem_cons_of_mem w h1)
    set b := (fun (a : Agent) (wall : Wall) =>
      let r := wall.rect
      if a.x + a.radius > r.x ∧ a.x - a.radius < r.x + r.w ∧
          a.y + a.radius > r.y ∧ a.y - a.radius < r.y + r.h then
        let overlapL := (a.x + a.radius) - r.x
        let overlapR := (r.x + r.w) - (a.x - a.radius)
        let overlapT := (a.y + a.radius) - r.y
        let overlapB := (r.y + r.h) - (a.y - a.radius)
        let minOv := min (min overlapL overlapR) (min overlapT overlapB)
        if minOv = overlapL then { a with x := a.x - overlapL, vx := min 0 a.vx }
        else if minOv = overlapR then { a with x := a.x + overlapR, vx := max 0 a.vx }
        else if minOv = overlapT then { a with y := a.y - overlapT, vy := min 0 a.vy }
        else { a with y := a.y + overlapB, vy := max 0 a.vy }
      else a) a w with hb
    have hbprops : (a.radius ≤ b.x ∧ b.x ≤ width - a.radius) ∧
        (a.radius ≤ b.y ∧ b.y ≤ height - a.radius) ∧ b.radius = a.radius := by
      rw [hb]
      dsimp only
      split
      · split
        · exact ⟨⟨by dsimp only; linarith, by dsimp only; linarith⟩, hy, rfl⟩
        · split
          · exact ⟨⟨by dsimp only; linarith, by dsimp only; linarith⟩, hy, rfl⟩
          · split
            · exact ⟨hx, ⟨by dsimp only; linarith, by dsimp only; linarith⟩, rfl⟩
            · exact ⟨hx, ⟨by dsimp only; linarith, by dsimp only; linarith⟩, rfl⟩
      · exact ⟨hx, hy, rfl⟩
    have hrad1 : 0 ≤ b.radius := hbprops.2.2 ▸ hrad
    have hmb : ∀ w1 ∈ ws, wallMargin width height b.radius w1 := by
      rw [hbprops.2.2]
      exact hms
    have := ih b hrad1 hmb (hbprops.2.2 ▸ hbprops.1) (hbprops.2.2 ▸ hbprops.2.1)
    rw [hbprops.2.2] at this
    exact this

theorem evacFoldStep_eq (o : MathO) (s : EngineState)
    (st : List (String × List ℕ) × List Agent) (a : Agent) :
    evacFoldStep o s st a =
      ((if evacTransitions a then removeFromAllQueues st.1 a.id else st.1),
        st.2 ++ [evacAgentStep o s a]) := by
  unfold evacFoldStep evacAgentStep evacTransitions
  by_cases hex : a.state = .exited
  · rw [if_pos hex, if_pos hex, if_neg (by rw [hex]; rintro (h | h | h) <;> exact absurd h (by simp))]
  · rw [if_neg hex, if_neg hex]
    by_cases htr : a.state = .at_attractor ∨ a.state = .seeking_attractor ∨ a.state = .queuing
    · rw [if_pos htr, if_pos htr, if_pos htr]
    · rw [if_neg htr, if_neg htr, if_neg htr]

theorem evacFold_eq (o : MathO) (s : EngineState) :
    ∀ (ags : List Agent) (qs : List (String × List ℕ)) (acc : List Agent),
      ags.foldl (evacFoldStep o s) (qs, acc) =
        ((ags.filter (fun a => decide (evacTransitions a))).foldl
          (fun qs a => removeFromAllQueues qs a.id) qs,
         acc ++ ags.map (evacAgentStep o s)) := by
  intro ags
  induction ags with
  | nil => intro qs acc; simp
  | cons a rest ih =>
    intro qs acc
    rw [List.foldl_cons, evacFoldStep_eq]
    by_cases htr : evacTransitions a
    · rw [if_pos htr, ih]
      simp [htr]
    · rw [if_neg htr, ih]
      simp [htr]

theorem triggerEvacuation_parts (o : MathO) (s : EngineState) :
    (triggerEvacuation o s).isEvacuating = true ∧
    (triggerEvacuation o s).agents =
      s.agents.map (evacAgentStep o { s with isEvacuating := true }) ∧
    (triggerEvacuation o s).queues =
      (s.agents.filter (fun a => decide (evacTransitions a))).foldl
        (fun qs a => removeFromAllQueues qs a.id) s.queues := by
  unfold triggerEvacuation
  dsimp only
  rw [evacFold_eq]
  exact ⟨rfl, by simp, rfl⟩

theorem evacAgentStep_not_transitioned (o : MathO) (s : EngineState) (a : Agent)
    (h : a.state = .seeking_exit ∨ a.state = .evacuating) :
    evacAgentStep o s a = { a with speed := a.speed * s.cfg.panicSpeedMultiplier } := by
  unfold evacAgentStep
  rcases h with h | h <;>
    rw [if_neg (by rw [h]; simp), if_neg (by rw [h]; rintro (h1 | h1 | h1) <;> exact absurd h1 (by simp))]

theorem evacAgentStep_exited (o : MathO) (s : EngineState) (a : Agent)
    (h : a.state = .exited) : evacAgentStep o s a = a := by
  unfold evacAgentStep
  rw [if_pos h]

theorem evacAgentStep_transitioned (o : MathO) (s : EngineState) (a : Agent)
    (h : evacTransitions a) :
    (evacAgentStep o s a).state = .evacuating ∧
    (evacAgentStep o s a).targetAttractorId = none ∧
    (evacAgentStep o s a).speed = a.speed * s.cfg.panicSpeedMultiplier ∧
    (evacAgentStep o s a).pathIndex = 0 ∧
    (evacAgentStep o s a).path =
      astar o s.passable ⟨a.x, a.y⟩
        (nearestExitPos s { a with state := .evacuating, targetAttractorId := none }).1 1 := by
  have hex : ¬ a.state = .exited := by
    rcases h with h | h | h <;> rw [h] <;> simp
  unfold evacTransitions at h
  unfold evacAgentStep
  rw [if_neg hex, if_pos h]
  unfold computePath
  rw [if_neg (by simp)]
  exact ⟨rfl, rfl, rfl, rfl, rfl⟩

theorem sweepOne_passed (o : MathO) (layout : VenueLayout) (baseCfg : SimConfig)
    (rk : ℕ) (n : ℚ) :
    ((sweepOne o layout baseCfg rk n).1).passed =
      (decide ((sweepOne o layout baseCfg rk n).1.peakDensity ≤ baseCfg.densityDanger) &&
       decide ((sweepOne o layout baseCfg rk n).1.p95EgressTime ≤ baseCfg.egresTimeLimitMin) &&
       decide ((sweepOne o layout baseCfg rk n).1.timeAboveWarningPct ≤ baseCfg.warningTimeLimitPct)) := by
  unfold sweepOne
  dsimp only

/-- C5: every result row the sweep driver records satisfies
`passed = (peakDensity ≤ densityDanger) ∧ (p95 egress ≤ limit) ∧
(time-above-warning percentage ≤ limit)`. -/
theorem C5_runSweep_passed (o : MathO) (layout : VenueLayout) (baseCfg : SimConfig)
    (rk0 : ℕ) :
    ∀ res ∈ runSweep o layout baseCfg rk0,
      res.passed =
        (decide (res.peakDensity ≤ baseCfg.densityDanger) &&
         decide (res.p95EgressTime ≤ baseCfg.egresTimeLimitMin) &&
         decide (res.timeAboveWarningPct ≤ baseCfg.warningTimeLimitPct)) := by
  unfold runSweep
  dsimp only
  have main : ∀ (values : List ℚ) (st : List SweepResult × ℕ),
      (∀ res ∈ st.1, res.passed =
        (decide (res.peakDensity ≤ baseCfg.densityDanger) &&
         decide (res.p95EgressTime ≤ baseCfg.egresTimeLimitMin) &&
         decide (res.timeAboveWarningPct ≤ baseCfg.warningTimeLimitPct))) →
      ∀ res ∈ (values.foldl
        (fun (st : List SweepResult × ℕ) n =>
          ((st.1 ++ [(sweepOne o layout baseCfg st.2 n).1], (sweepOne o layout baseCfg st.2 n).2) :
            List SweepResult × ℕ)) st).1, res.passed =
        (decide (res.peakDensity ≤ baseCfg.densityDanger) &&
         decide (res.p95EgressTime ≤ baseCfg.egresTimeLimitMin) &&
         decide (res.timeAboveWarningPct ≤ baseCfg.warningTimeLimitPct)) := by
    intro values
    induction values with
    | nil => intro st h; exact h
    | cons n rest ih =>
      intro st h
      rw [List.foldl_cons]
      refine ih _ ?_
      intro res hres
      rcases List.mem_append.mp hres with hres | hres
      · exact h res hres
      · rcases List.mem_singleton.mp hres with rfl
        exact sweepOne_passed o layout baseCfg st.2 n
  intro res hres
  exact main _ _ (by intro r hr; exact absurd hr (List.not_mem_nil r)) res hres


section listLemmas

variable {α : Type _}

theorem length_setNth (v : α) : ∀ (l : List α) (i : ℕ),
    (setNth l i v).length = l.length
  | [], _ => rfl
  | _ :: xs, 0 => rfl
  | x :: xs, n + 1 => by
    simp [setNth, length_setNth v xs n]

theorem mem_setNth (v : α) : ∀ (l : List α) (i : ℕ) (b : α),
    b ∈ setNth l i v → b ∈ l ∨ b = v
  | [], _, b => by intro h; exact absurd h (by simp [setNth])
  | x :: xs, 0, b => by
    intro h
    rcases List.mem_cons.mp h with h | h
    · right; exact h
    · left; exact List.mem_cons_of_mem _ h
  | x :: xs, n + 1, b => by
    intro h
    rcases List.mem_cons.mp h with h | h
    · left; rw [h]; exact List.mem_cons_self _ _
    · rcases mem_setNth v xs n b h with h | h
      · left; exact List.mem_cons_of_mem _ h
      · right; exact h

theorem filter_length_setNth (p : α → Bool) (v : α) :
    ∀ (l : List α) (i : ℕ) (a : α), l.get? i = some a →
    ((setNth l i v).filter p).length + (if p a then 1 else 0) =
      (l.filter p).length + (if p v then 1 else 0)
  | [], i, a => by intro h; simp at h
  | x :: xs, 0, a => by
    intro h
    simp only [List.get?] at h
    injection h with h
    subst h
    simp only [setNth, List.filter_cons]
    by_cases hv : p v = true <;> by_cases hx : p x = true <;>
      simp [hv, hx]
  | x :: xs, n + 1, a => by
    intro h
    simp only [List.get?] at h
    have ih := filter_length_setNth p v xs n a h
    simp only [setNth, List.filter_cons]
    by_cases hx : p x = true <;> simp [hx] <;> omega

theorem map_setNth {β : Type _} (f : α → β) (v : α) :
    ∀ (l : List α) (i : ℕ),
    (setNth l i v).map f = setNth (l.map f) i (f v)
  | [], _ => rfl
  | x :: xs, 0 => rfl
  | x :: xs, n + 1 => by
    simp [setNth, map_setNth f v xs n]

theorem setNth_get_self : ∀ (l : List α) (i : ℕ) (a : α),
    l.get? i = some a → setNth l i a = l
  | [], i, a => by intro h; simp at h
  | x :: xs, 0, a => by
    intro h; simp only [List.get?] at h; cases h; rfl
  | x :: xs, n + 1, a => by
    intro h
    simp only [List.get?] at h
    simp [setNth, setNth_get_self xs n a h]

/-- Members of a write-back into a list of agents with pairwise
distinct ids: either the written agent, or an untouched agent whose id
differs from the replaced slot's id. -/
theorem setNth_agents_cases (a' : Agent) :
    ∀ (l : List Agent) (i : ℕ) (a : Agent),
    l.get? i = some a →
    (l.map (fun x => x.id)).Nodup →
    ∀ b ∈ setNth l i a', b = a' ∨ (b ∈ l ∧ b.id ≠ a.id)
  | [], i, a => by intro h; simp at h
  | x :: xs, 0, a => by
    intro h hnd b hb
    simp only [List.get?] at h
    cases h
    simp only [List.map_cons, List.nodup_cons] at hnd
    rcases List.mem_cons.mp hb with hb | hb
    · left; exact hb
    · right
      refine ⟨List.mem_cons_of_mem _ hb, ?_⟩
      intro he
      exact hnd.1 (he ▸ List.mem_map_of_mem (fun x => x.id) hb)
  | x :: xs, n + 1, a => by
    intro h hnd b hb
    simp only [List.get?] at h
    simp only [List.map_cons, List.nodup_cons] at hnd
    rcases List.mem_cons.mp hb with hb | hb
    · right
      refine ⟨hb ▸ List.mem_cons_self _ _, ?_⟩
      have ha : a ∈ xs := List.get?_mem h
      intro he
      rw [hb] at he
      exact hnd.1 (by rw [he]; exact List.mem_map_of_mem (fun x => x.id) ha)
    · rcases setNth_agents_cases a' xs n a h hnd.2 b hb with hc | hc
      · left; exact hc
      · right; exact ⟨List.mem_cons_of_mem _ hc.1, hc.2⟩

-- `updateAgentInList` lemmas

theorem mem_updateAgentInList (na : Agent) :
    ∀ (l : List Agent) (id : ℕ) (b : Agent),
    b ∈ updateAgentInList l id na → b ∈ l ∨ b = na
  | [], _, b => by intro h; exact absurd h (by simp [updateAgentInList])
  | x :: xs, id, b => by
    intro h
    simp only [updateAgentInList] at h
    split at h
    · rcases List.mem_cons.mp h with h | h
      · right; exact h
      · left; exact List.mem_cons_of_mem _ h
    · rcases List.mem_cons.mp h with h | h
      · left; rw [h]; exact List.mem_cons_self _ _
      · rcases mem_updateAgentInList na xs id b h with h | h
        · left; exact List.mem_cons_of_mem _ h
        · right; exact h

theorem updateAgentInList_cases (na : Agent) :
    ∀ (l : List Agent) (id : ℕ),
    na.id = id →
    (l.map (fun x => x.id)).Nodup →
    ∀ b ∈ updateAgentInList l id na, b = na ∨ (b ∈ l ∧ b.id ≠ id)
  | [], id => by intro _ _ b h; exact absurd h (by simp [updateAgentInList])
  | x :: xs, id => by
    intro hna hnd b hb
    simp only [List.map_cons, List.nodup_cons] at hnd
    simp only [updateAgentInList] at hb
    split at hb
    case isTrue hx =>
      rcases List.mem_cons.mp hb with hb | hb
      · left; exact hb
      · right
        refine ⟨List.mem_cons_of_mem _ hb, ?_⟩
        intro he
        exact hnd.1 (hx ▸ he ▸ List.mem_map_of_mem (fun x => x.id) hb)
    case isFalse hx =>
      rcases List.mem_cons.mp hb with hb | hb
      · right; exact ⟨hb ▸ List.mem_cons_self _ _, hb ▸ hx⟩
      · rcases updateAgentInList_cases na xs id hna hnd.2 b hb with hc | hc
        · left; exact hc
        · right; exact ⟨List.mem_cons_of_mem _ hc.1, hc.2⟩

theorem filter_length_updateAgentInList (p : Agent → Bool) (na : Agent) :
    ∀ (l : List Agent) (id : ℕ),
    (∀ a ∈ l, a.id = id → p a = p na) →
    ((updateAgentInList l id na).filter p).length = (l.filter p).length
  | [], id => by intro _; rfl
  | x :: xs, id => by
    intro h
    simp only [updateAgentInList]
    split
    case isTrue hx =>
      have hpx : p x = p na := h x (List.mem_cons_self _ _) hx
      simp only [List.filter_cons, hpx]
      split <;> simp
    case isFalse hx =>
      have ih := filter_length_updateAgentInList p na xs id
        (fun a ha => h a (List.mem_cons_of_mem _ ha))
      simp only [List.filter_cons]
      split <;> simp [ih]

theorem map_id_updateAgentInList (na : Agent) :
    ∀ (l : List Agent) (id : ℕ), na.id = id →
    (updateAgentInList l id na).map (fun a => a.id) = l.map (fun a => a.id)
  | [], _ => by intro _; rfl
  | x :: xs, id => by
    intro hna
    simp only [updateAgentInList]
    split
    case isTrue hx => simp [hna, hx]
    case isFalse hx => simp [map_id_updateAgentInList na xs id hna]

-- `removeFirst` lemmas

theorem mem_removeFirst : ∀ (l : List ℕ) (y b : ℕ),
    b ∈ removeFirst l y → b ∈ l
  | [], y, b => by intro h; exact absurd h (by simp [removeFirst])
  | x :: xs, y, b => by
    intro h
    simp only [removeFirst] at h
    split at h
    · exact List.mem_cons_of_mem _ h
    · rcases List.mem_cons.mp h with h | h
      · rw [h]; exact List.mem_cons_self _ _
      · exact List.mem_cons_of_mem _ (mem_removeFirst xs y b h)

theorem count_removeFirst_le (x : ℕ) : ∀ (l : List ℕ) (y : ℕ),
    (removeFirst l y).count x ≤ l.count x
  | [], y => by simp [removeFirst]
  | z :: xs, y => by
    simp only [removeFirst]
    split
    · simp only [List.count_cons]
      omega
    · simp only [List.count_cons]
      have := count_removeFirst_le x xs y
      omega

theorem count_removeFirst_ne (x : ℕ) : ∀ (l : List ℕ) (y : ℕ), x ≠ y →
    (removeFirst l y).count x = l.count x
  | [], y => by intro _; rfl
  | z :: xs, y => by
    intro hxy
    simp only [removeFirst]
    split
    case isTrue hz =>
      simp only [List.count_cons]
      have : ¬ z = x := by omega
      simp [this]
    case isFalse hz =>
      simp only [List.count_cons, count_removeFirst_ne x xs y hxy]

theorem count_removeFirst_self : ∀ (l : List ℕ) (y : ℕ), y ∈ l →
    (removeFirst l y).count y + 1 = l.count y
  | [], y => by intro h; simp at h
  | z :: xs, y => by
    intro hy
    simp only [removeFirst]
    split
    case isTrue hz =>
      simp [List.count_cons, hz]
    case isFalse hz =>
      have hy' : y ∈ xs := by
        rcases List.mem_cons.mp hy with h | h
        · exact absurd h.symm hz
        · exact h
      have : ¬ z = y := hz
      simp only [List.count_cons, if_neg this]
      have := count_removeFirst_self xs y hy'
      omega

theorem not_mem_removeFirst (l : List ℕ) (y x : ℕ) (h : x ∉ l) :
    x ∉ removeFirst l y :=
  fun hc => h (mem_removeFirst l y x hc)

-- `alGet` / `alSet` lemmas

theorem alGet_mem {β : Type _} : ∀ (m : List (String × β)) (k : String) (v : β),
    alGet m k = some v → (k, v) ∈ m
  | [], k, v => by intro h; simp [alGet] at h
  | p :: ps, k, v => by
    intro h
    simp only [alGet, List.find?] at h
    split at h
    case h_1 heq =>
      simp only [Option.map_some'] at h
      cases h
      have hpk : p.1 = k := by simpa using of_decide_eq_true heq
      have hkp : (k, p.2) = p := by rw [← hpk]
      rw [hkp]
      exact List.mem_cons_self _ _
    case h_2 heq =>
      right
      exact alGet_mem ps k v (by simpa [alGet] using h)

theorem mem_alSet {β : Type _} : ∀ (m : List (String × β)) (k : String) (v : β)
    (p : String × β), p ∈ alSet m k v → p ∈ m ∨ p = (k, v)
  | [], k, v, p => by
    intro h
    simp only [alSet] at h
    right
    simpa using h
  | q :: ps, k, v, p => by
    intro h
    simp only [alSet] at h
    split at h
    · rcases List.mem_cons.mp h with h | h
      · right; exact h
      · left; exact List.mem_cons_of_mem _ h
    · rcases List.mem_cons.mp h with h | h
      · left; rw [h]; exact List.mem_cons_self _ _
      · rcases mem_alSet ps k v p h with h | h
        · left; exact List.mem_cons_of_mem _ h
        · right; exact h

theorem alSet_sum_count (x : ℕ) :
    ∀ (m : List (String × List ℕ)) (k : String) (v q : List ℕ),
    alGet m k = some q →
    ((alSet m k v).map (fun p => p.2.count x)).sum + q.count x =
      (m.map (fun p => p.2.count x)).sum + v.count x
  | [], k, v, q => by intro h; simp [alGet] at h
  | p :: ps, k, v, q => by
    intro h
    simp only [alGet, List.find?] at h
    simp only [alSet]
    split
    case isTrue hp =>
      have hd : decide (p.1 = k) = true := decide_eq_true hp
      rw [hd] at h
      simp only [Option.map_some'] at h
      cases h
      simp only [List.map_cons, List.sum_cons]
      omega
    case isFalse hp =>
      have hd : decide (p.1 = k) = false := decide_eq_false hp
      rw [hd] at h
      have ih := alSet_sum_count x ps k v q (by simpa [alGet] using h)
      simp only [List.map_cons, List.sum_cons]
      omega

theorem alSet_sum_count_none (x : ℕ) :
    ∀ (m : List (String × List ℕ)) (k : String) (v : List ℕ),
    alGet m k = none →
    ((alSet m k v).map (fun p => p.2.count x)).sum =
      (m.map (fun p => p.2.count x)).sum + v.count x
  | [], k, v => by intro _; simp [alSet]
  | p :: ps, k, v => by
    intro h
    simp only [alGet, List.find?] at h
    simp only [alSet]
    split
    case isTrue hp =>
      have hd : decide (p.1 = k) = true := decide_eq_true hp
      rw [hd] at h
      simp at h
    case isFalse hp =>
      have hd : decide (p.1 = k) = false := decide_eq_false hp
      rw [hd] at h
      have ih := alSet_sum_count_none x ps k v (by simpa [alGet] using h)
      simp only [List.map_cons, List.sum_cons]
      omega

-- `queueCount` lemmas

theorem count_le_queueCount (qs : List (String × List ℕ))
    (p : String × List ℕ) (x : ℕ) (hp : p ∈ qs) :
    p.2.count x ≤ queueCount qs x := by
  unfold queueCount
  exact List.single_le_sum (by intro y _; exact Nat.zero_le y) _
    (List.mem_map_of_mem (fun p => p.2.count x) hp)

theorem queueCount_pos (qs : List (String × List ℕ))
    (p : String × List ℕ) (x : ℕ) (hp : p ∈ qs) (hx : x ∈ p.2) :
    1 ≤ queueCount qs x := by
  have h1 : 1 ≤ p.2.count x := List.one_le_count_iff.mpr hx
  exact le_trans h1 (count_le_queueCount qs p x hp)

theorem queueCount_eq_zero (qs : List (String × List ℕ)) (x : ℕ)
    (h : ∀ p ∈ qs, x ∉ p.2) : queueCount qs x = 0 := by
  unfold queueCount
  induction qs with
  | nil => rfl
  | cons p ps ih =>
    simp only [List.map_cons, List.sum_cons]
    rw [List.count_eq_zero.mpr (h p (List.mem_cons_self _ _)),
      ih (fun q hq => h q (List.mem_cons_of_mem _ hq))]

theorem not_mem_of_queueCount_zero (qs : List (String × List ℕ))
    (p : String × List ℕ) (x : ℕ) (hp : p ∈ qs)
    (h : queueCount qs x = 0) : x ∉ p.2 := by
  intro hx
  have := queueCount_pos qs p x hp hx
  omega

-- removal-fold lemmas (the queue-leaving loop of `triggerEvacuation`)

theorem removal_fold_per_queue :
    ∀ (T : List Agent) (qs : List (String × List ℕ)),
    T.foldl (fun qs a => removeFromAllQueues qs a.id) qs =
      qs.map (fun p => (p.1, T.foldl (fun l (a : Agent) => removeFirst l a.id) p.2))
  | [], qs => by simp
  | t :: ts, qs => by
    rw [List.foldl_cons, removal_fold_per_queue ts]
    unfold removeFromAllQueues
    rw [List.map_map]
    rfl

theorem remove_fold_mem (x : ℕ) :
    ∀ (T : List Agent) (q : List ℕ),
    x ∈ T.foldl (fun l (a : Agent) => removeFirst l a.id) q → x ∈ q
  | [], q => by intro h; exact h
  | t :: ts, q => by
    intro h
    rw [List.foldl_cons] at h
    exact mem_removeFirst q t.id x (remove_fold_mem x ts _ h)

theorem remove_fold_not_mem (x : ℕ) :
    ∀ (T : List Agent) (q : List ℕ), x ∉ q →
    x ∉ T.foldl (fun l (a : Agent) => removeFirst l a.id) q :=
  fun T q h hc => h (remove_fold_mem x T q hc)

theorem remove_fold_count_le (x : ℕ) :
    ∀ (T : List Agent) (q : List ℕ),
    (T.foldl (fun l (a : Agent) => removeFirst l a.id) q).count x ≤ q.count x
  | [], q => le_refl _
  | t :: ts, q => by
    rw [List.foldl_cons]
    exact le_trans (remove_fold_count_le x ts _) (count_removeFirst_le x q t.id)

theorem remove_fold_kills (x : ℕ) :
    ∀ (T : List Agent) (q : List ℕ),
    (∃ a ∈ T, a.id = x) → q.count x ≤ 1 →
    x ∉ T.foldl (fun l (a : Agent) => removeFirst l a.id) q
  | [], q => by rintro ⟨a, ha, _⟩ _; simp at ha
  | t :: ts, q => by
    rintro ⟨a, ha, hax⟩ hc
    rw [List.foldl_cons]
    rcases List.mem_cons.mp ha with ha | ha
    · -- the head agent carries x: removing it empties the queue of x
      have htx : t.id = x := by rw [← ha]; exact hax
      have hnm : x ∉ removeFirst q t.id := by
        rw [htx]
        by_cases hq : x ∈ q
        · have := count_removeFirst_self q x hq
          intro hc2
          have := List.one_le_count_iff.mpr hc2
          omega
        · exact not_mem_removeFirst q x x hq
      exact remove_fold_not_mem x ts _ hnm
    · exact remove_fold_kills x ts _ ⟨a, ha, hax⟩
        (le_trans (count_removeFirst_le x q t.id) hc)

end listLemmas

section agentLemmas

theorem computePath_id_state (o : MathO) (s : EngineState) :
    ∀ a : Agent, (computePath o s a).id = a.id ∧
      (computePath o s a).state = a.state := by
  intro a
  unfold computePath
  exact ⟨rfl, rfl⟩

theorem integratePosition_id_state (w ht dt : ℚ) :
    ∀ a : Agent, (integratePosition w ht dt a).id = a.id ∧
      (integratePosition w ht dt a).state = a.state := by
  intro a
  unfold integratePosition
  exact ⟨rfl, rfl⟩

theorem resolveWallCollisions_id_state (walls : List Wall) :
    ∀ a : Agent, (resolveWallCollisions walls a).id = a.id ∧
      (resolveWallCollisions walls a).state = a.state := by
  intro a
  unfold resolveWallCollisions
  refine foldl_preserve (fun b => b.id = a.id ∧ b.state = a.state)
    _ ?_ walls a ⟨rfl, rfl⟩
  intro b w hb
  dsimp only
  repeat' split
  all_goals exact hb

theorem agentMotion_id_state (o : MathO) (h : SpatialHash) (dt : ℚ)
    (s : EngineState) (a : Agent) (dx dy dw : ℚ) :
    (agentMotion o h dt s a dx dy dw).id = a.id ∧
      (agentMotion o h dt s a dx dy dw).state = a.state := by
  have h1 := integratePosition_id_state s.layout.width s.layout.height dt
  have h2 := resolveWallCollisions_id_state s.layout.walls
  have h3 := computePath_id_state o s
  unfold agentMotion
  dsimp only
  repeat' split
  all_goals refine ⟨?_, ?_⟩
  all_goals
    first
      | exact ((h3 _).1.trans ((h2 _).1.trans (h1 _).1))
      | exact ((h3 _).2.trans ((h2 _).2.trans (h1 _).2))

theorem checkExitArrival_cases (o : MathO) (s : EngineState) (a : Agent) :
    checkExitArrival o s a = (a, none) ∨
    (checkExitArrival o s a =
      ({ a with state := .exited, exitTime := s.simTime },
        some (s.simTime - a.spawnTime)) ∧
      ¬ a.state = .queuing) := by
  unfold checkExitArrival
  split
  · left; rfl
  case isFalse hg =>
    have hst : a.state = .seeking_exit ∨ a.state = .evacuating := by
      by_cases h1 : a.state = .seeking_exit
      · left; exact h1
      · right; by_contra h2; exact hg ⟨h1, h2⟩
    split
    · right
      refine ⟨rfl, ?_⟩
      rcases hst with h | h <;> rw [h] <;> intro hc <;> exact absurd hc (by simp)
    · left; rfl

theorem onAgentReachedTarget_effects (o : MathO) (s : EngineState) (a : Agent) :
    (onAgentReachedTarget o s a).1.id = a.id ∧
    (onAgentReachedTarget o s a).2.agents = s.agents ∧
    (onAgentReachedTarget o s a).2.egressTimes = s.egressTimes ∧
    (onAgentReachedTarget o s a).2.spawnedCount = s.spawnedCount ∧
    (onAgentReachedTarget o s a).2.nextId = s.nextId ∧
    (((onAgentReachedTarget o s a).2.queues = s.queues ∧
      ¬ (onAgentReachedTarget o s a).1.state = .exited) ∨
     (a.state = .seeking_attractor ∧
      (onAgentReachedTarget o s a).1.state = .queuing ∧
      ∃ k, (onAgentReachedTarget o s a).2.queues =
        alSet s.queues k
          (if ((alGet s.queues k).getD []).contains a.id
           then (alGet s.queues k).getD []
           else (alGet s.queues k).getD [] ++ [a.id]))) := by
  have h3 := computePath_id_state o s
  unfold onAgentReachedTarget
  split
  case isTrue hgate =>
    split
    case h_1 =>
      refine ⟨(h3 _).1, rfl, rfl, rfl, rfl, Or.inl ⟨rfl, ?_⟩⟩
      rw [(h3 _).2]
      intro hc
      exact absurd hc (by simp)
    case h_2 att hfind =>
      split
      case isTrue hq =>
        exact ⟨rfl, rfl, rfl, rfl, rfl, Or.inr ⟨hgate.1, rfl, att.id, rfl⟩⟩
      case isFalse hq =>
        refine ⟨rfl, rfl, rfl, rfl, rfl, Or.inl ⟨rfl, ?_⟩⟩
        intro hc
        exact absurd hc (by simp)
  case isFalse hgate =>
    refine ⟨(h3 _).1, rfl, rfl, rfl, rfl, Or.inl ⟨rfl, ?_⟩⟩
    rw [(h3 _).2]
    intro hc
    exact absurd hc (by simp)

end agentLemmas

/-- Effect summary of `updateAgent` on a non-exited agent: the returned
state keeps the agents array, the spawn counter and the id counter, and
the queue/egress side effects fall into exactly one of three shapes:
no change (agent stays non-exited, and a queuing agent stays queuing);
an exit (one egress time appended); or a queue join (the agent's id
pushed onto one queue map entry). -/
theorem updateAgent_effects (o : MathO) (h : SpatialHash) (dt : ℚ)
    (s : EngineState) (a : Agent) (ha : ¬ a.state = .exited) :
    (updateAgent o h dt s a).1.id = a.id ∧
    (updateAgent o h dt s a).2.agents = s.agents ∧
    (updateAgent o h dt s a).2.spawnedCount = s.spawnedCount ∧
    (updateAgent o h dt s a).2.nextId = s.nextId ∧
    (((updateAgent o h dt s a).2.queues = s.queues ∧
      (updateAgent o h dt s a).2.egressTimes = s.egressTimes ∧
      ¬ (updateAgent o h dt s a).1.state = .exited ∧
      (a.state = .queuing → (updateAgent o h dt s a).1.state = .queuing)) ∨
     ((updateAgent o h dt s a).2.queues = s.queues ∧
      (∃ t, (updateAgent o h dt s a).2.egressTimes = s.egressTimes ++ [t]) ∧
      (updateAgent o h dt s a).1.state = .exited ∧
      ¬ a.state = .queuing) ∨
     (a.state = .seeking_attractor ∧
      (updateAgent o h dt s a).2.egressTimes = s.egressTimes ∧
      (updateAgent o h dt s a).1.state = .queuing ∧
      ∃ k, (updateAgent o h dt s a).2.queues =
        alSet s.queues k
          (if ((alGet s.queues k).getD []).contains a.id
           then (alGet s.queues k).getD []
           else (alGet s.queues k).getD [] ++ [a.id]))) := by
  have h3 := computePath_id_state o
  unfold updateAgent
  split
  case isTrue hat =>
    -- at_attractor: either finish service (→ seeking_exit) or wait
    split
    case isTrue hts =>
      split
      all_goals
        refine ⟨(h3 _ _).1, rfl, rfl, rfl,
          Or.inl ⟨rfl, rfl, ?_, fun hq => absurd hq (by rw [hat]; simp)⟩⟩
      all_goals rw [(h3 _ _).2]
      all_goals intro hc
      all_goals exact absurd hc (by simp)
    case isFalse hts =>
      exact ⟨rfl, rfl, rfl, rfl,
        Or.inl ⟨rfl, rfl, ha, fun hq => hq⟩⟩
  case isFalse hat =>
    split
    case isTrue hqu =>
      -- queuing: damp velocity, stay queuing
      exact ⟨rfl, rfl, rfl, rfl, Or.inl ⟨rfl, rfl, by rw [hqu]; simp, fun _ => hqu⟩⟩
    case isFalse hqu =>
      split
      case h_1 =>
        -- no waypoint: re-plan, state becomes evacuating/seeking_exit
        refine ⟨(h3 _ _).1, rfl, rfl, rfl,
          Or.inl ⟨rfl, rfl, ?_, fun hq => absurd hq hqu⟩⟩
        rw [(h3 _ _).2]
        dsimp only
        split <;> (intro hc; exact absurd hc (by simp))
      case h_2 wp hwp =>
        dsimp only
        split
        case isTrue hend =>
          -- reached the final waypoint: onAgentReachedTarget
          have he := onAgentReachedTarget_effects o s
            { a with pathIndex := a.pathIndex + 1 }
          refine ⟨he.1, he.2.1, he.2.2.2.1, he.2.2.2.2.1, ?_⟩
          rcases he.2.2.2.2.2 with hc | hc
          · exact Or.inl ⟨hc.1, he.2.2.1, hc.2, fun hq => absurd hq hqu⟩
          · exact Or.inr (Or.inr ⟨hc.1, he.2.2.1, hc.2.1, hc.2.2⟩)
        case isFalse hend =>
          -- motion step, then the exit-arrival check
          have hmid := agentMotion_id_state o h dt s
            (if (o.sqrt ((wp.x - a.x) * (wp.x - a.x) + (wp.y - a.y) * (wp.y - a.y))) < 0.6
             then { a with pathIndex := a.pathIndex + 1 } else a)
            (wp.x - a.x) (wp.y - a.y)
            (o.sqrt ((wp.x - a.x) * (wp.x - a.x) + (wp.y - a.y) * (wp.y - a.y)))
          rcases checkExitArrival_cases o s
            (agentMotion o h dt s
              (if (o.sqrt ((wp.x - a.x) * (wp.x - a.x) + (wp.y - a.y) * (wp.y - a.y))) < 0.6
               then { a with pathIndex := a.pathIndex + 1 } else a)
              (wp.x - a.x) (wp.y - a.y)
              (o.sqrt ((wp.x - a.x) * (wp.x - a.x) + (wp.y - a.y) * (wp.y - a.y)))) with
            hce | hce
          · rw [hce]
            dsimp only
            refine ⟨?_, rfl, rfl, rfl, Or.inl ⟨rfl, rfl, ?_, fun hq => absurd hq hqu⟩⟩
            · rw [hmid.1]
              split <;> rfl
            · rw [hmid.2]
              split <;> simpa using ha
          · rw [hce.1]
            dsimp only
            refine ⟨?_, rfl, rfl, rfl,
              Or.inr (Or.inl ⟨rfl, ⟨_, rfl⟩, rfl, hqu⟩)⟩
            rw [hmid.1]
            split <;> rfl

section phaseWF

theorem foldl_projK {σ α β : Type _} (proj : σ → β) (f : σ → α → σ)
    (h : ∀ st x, proj (f st x) = proj st) :
    ∀ (l : List α) (st : σ), proj (l.foldl f st) = proj st := by
  intro l
  induction l with
  | nil => intro st; rfl
  | cons x xs ih => intro st; rw [List.foldl_cons, ih, h]

theorem foldl_projK' {σ α β : Type _} (proj : σ → β) (f : σ → α → σ)
    (h : ∀ st x, proj (f st x) = proj st) (l : List α) (st : σ) (target : β)
    (hst : proj st = target) : proj (l.foldl f st) = target :=
  (foldl_projK proj f h l st).trans hst

theorem engineWF_of_book {t s : EngineState}
    (hb : bookFields t = bookFields s) (h : engineWF s) : engineWF t := by
  have ha : t.agents = s.agents := congrArg (fun x => x.1) hb
  have he : t.egressTimes = s.egressTimes := congrArg (fun x => x.2.1) hb
  have hsp : t.spawnedCount = s.spawnedCount := congrArg (fun x => x.2.2.1) hb
  have hq : t.queues = s.queues := congrArg (fun x => x.2.2.2.1) hb
  have hn : t.nextId = s.nextId := congrArg (fun x => x.2.2.2.2) hb
  unfold engineWF countEqInv queueOKInv queueUniqInv queueIdsBoundInv idsOKInv
  rw [ha, he, hsp, hq, hn]
  exact h

theorem fireSmokePhase_book (dt : ℚ) (s : EngineState) :
    bookFields (fireSmokePhase dt s) = bookFields s := by
  unfold fireSmokePhase spreadSmoke spreadFire
  repeat' split
  all_goals rfl

theorem tickOneFF_book (o : MathO) (dt : ℚ) (st : EngineState × List Firefighter)
    (ff : Firefighter) : bookFields (tickOneFF o dt st ff).1 = bookFields st.1 := by
  unfold tickOneFF
  dsimp only
  repeat' split
  all_goals first
    | rfl
    | (exact foldl_projK' (fun s => bookFields s) _
        (by
          intro t x
          dsimp only
          repeat' split
          all_goals rfl) _ _ _ rfl)

theorem spawnFirefighters_book (o : MathO) (s : EngineState) :
    bookFields (spawnFirefighters o s) = bookFields s := by
  unfold spawnFirefighters
  split
  · rfl
  · exact foldl_projK (fun s => bookFields s) _ (by intro t x; rfl) _ _

theorem tickFirefighters_book (o : MathO) (dt : ℚ) (s : EngineState) :
    bookFields (tickFirefighters o dt s) = bookFields s := by
  have hfold : ∀ (l : List Firefighter) (st : EngineState × List Firefighter),
      bookFields (l.foldl (tickOneFF o dt) st).1 = bookFields st.1 :=
    foldl_projK (fun st => bookFields st.1) _ (fun st x => tickOneFF_book o dt st x)
  unfold tickFirefighters
  dsimp only
  split
  · exact (hfold _ _).trans (spawnFirefighters_book o s)
  · exact (hfold _ _).trans rfl

theorem densityMetricsPhase_book (dt : ℚ) (s : EngineState) :
    bookFields (densityMetricsPhase dt s) = bookFields s := by
  unfold densityMetricsPhase
  dsimp only
  repeat' split
  all_goals rfl

-- `evacAgentStep` field lemmas

theorem evacAgentStep_id (o : MathO) (s : EngineState) (a : Agent) :
    (evacAgentStep o s a).id = a.id := by
  unfold evacAgentStep
  split
  · rfl
  split
  · exact (computePath_id_state o s _).1
  · rfl

theorem evacAgentStep_exited_iff (o : MathO) (s : EngineState) (a : Agent) :
    ((evacAgentStep o s a).state = .exited) ↔ (a.state = .exited) := by
  unfold evacAgentStep
  split
  case isTrue hex => exact Iff.rfl
  case isFalse hex =>
    split
    case isTrue htr =>
      rw [(computePath_id_state o s _).2]
      constructor
      · intro hc; exact absurd hc (by simp)
      · intro hc; exact absurd hc hex
    case isFalse htr => exact Iff.rfl

theorem evacFoldStep_eqK (o : MathO) (s : EngineState)
    (st : List (String × List ℕ) × List Agent) (a : Agent) :
    evacFoldStep o s st a =
      ((if evacTransitions a then removeFromAllQueues st.1 a.id else st.1),
        st.2 ++ [evacAgentStep o s a]) := by
  unfold evacFoldStep evacAgentStep evacTransitions
  by_cases hex : a.state = .exited
  · rw [if_pos hex, if_pos hex, if_neg (by rw [hex]; rintro (h | h | h) <;> exact absurd h (by simp))]
  · rw [if_neg hex, if_neg hex]
    by_cases htr : a.state = .at_attractor ∨ a.state = .seeking_attractor ∨ a.state = .queuing
    · rw [if_pos htr, if_pos htr, if_pos htr]
    · rw [if_neg htr, if_neg htr, if_neg htr]

theorem evacFold_eqK (o : MathO) (s : EngineState) :
    ∀ (ags : List Agent) (qs : List (String × List ℕ)) (acc : List Agent),
      ags.foldl (evacFoldStep o s) (qs, acc) =
        ((ags.filter (fun a => decide (evacTransitions a))).foldl
          (fun qs a => removeFromAllQueues qs a.id) qs,
         acc ++ ags.map (evacAgentStep o s)) := by
  intro ags
  induction ags with
  | nil => intro qs acc; simp
  | cons a rest ih =>
    intro qs acc
    rw [List.foldl_cons, evacFoldStep_eqK]
    by_cases htr : evacTransitions a
    · rw [if_pos htr, ih]
      simp [htr]
    · rw [if_neg htr, ih]
      simp [htr]

theorem triggerEvacuation_partsK (o : MathO) (s : EngineState) :
    (triggerEvacuation o s).isEvacuating = true ∧
    (triggerEvacuation o s).agents =
      s.agents.map (evacAgentStep o { s with isEvacuating := true }) ∧
    (triggerEvacuation o s).queues =
      (s.agents.filter (fun a => decide (evacTransitions a))).foldl
        (fun qs a => removeFromAllQueues qs a.id) s.queues := by
  unfold triggerEvacuation
  dsimp only
  rw [evacFold_eqK]
  exact ⟨rfl, by simp, rfl⟩

theorem triggerEvacuation_WF (o : MathO) (s : EngineState)
    (h : engineWF s) : engineWF (triggerEvacuation o s) := by
  have hcount := h.1
  have hqok := h.2.1
  have huniq := h.2.2.1
  have hbound := h.2.2.2.1
  have hnd := h.2.2.2.2.1
  have hlt := h.2.2.2.2.2
  have hp := triggerEvacuation_partsK o s
  have hA := hp.2.1
  have hQ := hp.2.2
  have hQ2 : (triggerEvacuation o s).queues =
      s.queues.map (fun p => (p.1,
        (s.agents.filter (fun a => decide (evacTransitions a))).foldl
          (fun l (a : Agent) => removeFirst l a.id) p.2)) := by
    rw [hQ, removal_fold_per_queue]
  have hE : (triggerEvacuation o s).egressTimes = s.egressTimes := rfl
  have hS : (triggerEvacuation o s).spawnedCount = s.spawnedCount := rfl
  have hN : (triggerEvacuation o s).nextId = s.nextId := rfl
  refine ⟨?_, ?_, ?_, ?_, ?_, ?_⟩
  · -- countEqInv
    unfold countEqInv
    rw [hA, hE, hS, List.filter_map, List.length_map]
    rw [List.filter_congr (fun a _ => ?_)]
    · exact hcount
    · simp only [Function.comp_apply]
      exact decide_eq_decide.mpr (not_congr (evacAgentStep_exited_iff o _ a))
  · -- queueOKInv
    intro p' hp' id hid b hb hbid
    rw [hQ2] at hp'
    obtain ⟨p, hpmem, hpe⟩ := List.mem_map.mp hp'
    have hid2 : id ∈ p.2 := by
      apply remove_fold_mem id _ p.2
      rw [← hpe] at hid
      exact hid
    rw [hA] at hb
    obtain ⟨a0, ha0, hbe⟩ := List.mem_map.mp hb
    have hbid0 : a0.id = id := by
      rw [← hbid, ← hbe, evacAgentStep_id]
    have hq0 : a0.state = .queuing := hqok p hpmem id hid2 a0 ha0 hbid0
    have htr : a0 ∈ s.agents.filter (fun a => decide (evacTransitions a)) :=
      List.mem_filter.mpr ⟨ha0, by
        apply decide_eq_true
        exact Or.inr (Or.inr hq0)⟩
    have hkill := remove_fold_kills id
      (s.agents.filter (fun a => decide (evacTransitions a))) p.2
      ⟨a0, htr, hbid0⟩
      (le_trans (count_le_queueCount s.queues p id hpmem) (huniq p hpmem id hid2))
    rw [← hpe] at hid
    exact absurd hid hkill
  · -- queueUniqInv
    intro p' hp' id hid
    have hmono : queueCount (triggerEvacuation o s).queues id ≤
        queueCount s.queues id := by
      rw [hQ2]
      unfold queueCount
      rw [List.map_map]
      refine List.sum_le_sum ?_
      intro p hpm
      exact remove_fold_count_le id _ p.2
    rw [hQ2] at hp'
    obtain ⟨p, hpmem, hpe⟩ := List.mem_map.mp hp'
    have hid2 : id ∈ p.2 := by
      apply remove_fold_mem id _ p.2
      rw [← hpe] at hid
      exact hid
    exact le_trans hmono (huniq p hpmem id hid2)
  · -- queueIdsBoundInv
    intro p' hp' id hid
    rw [hQ2] at hp'
    obtain ⟨p, hpmem, hpe⟩ := List.mem_map.mp hp'
    have hid2 : id ∈ p.2 := by
      apply remove_fold_mem id _ p.2
      rw [← hpe] at hid
      exact hid
    rw [hN]
    exact hbound p hpmem id hid2
  · -- ids Nodup
    rw [hA, List.map_map]
    have : ((fun a => a.id) ∘ evacAgentStep o { s with isEvacuating := true }) =
        fun a : Agent => (evacAgentStep o { s with isEvacuating := true } a).id := rfl
    rw [this]
    rw [List.map_congr_left (fun a _ => evacAgentStep_id o _ a)]
    exact hnd
  · -- id bound
    intro b hb
    rw [hA] at hb
    obtain ⟨a0, ha0, hbe⟩ := List.mem_map.mp hb
    rw [hN, ← hbe, evacAgentStep_id]
    exact hlt a0 ha0

theorem evacCheckPhase_WF (o : MathO) (s : EngineState)
    (h : engineWF s) : engineWF (evacCheckPhase o s) := by
  unfold evacCheckPhase
  split
  · exact triggerEvacuation_WF o s h
  · exact h

end phaseWF

section spawnWF

theorem spawnOneAgent_effects (o : MathO) (s : EngineState) :
    ∃ a : Agent, a.id = s.nextId ∧ ¬ a.state = .exited ∧
      (spawnOneAgent o s).agents = s.agents ++ [a] ∧
      (spawnOneAgent o s).egressTimes = s.egressTimes ∧
      (spawnOneAgent o s).queues = s.queues ∧
      (spawnOneAgent o s).spawnedCount = s.spawnedCount + 1 ∧
      (spawnOneAgent o s).nextId = s.nextId + 1 := by
  unfold spawnOneAgent
  dsimp only
  refine ⟨_, ?_, ?_, rfl, rfl, rfl, rfl, rfl⟩
  · exact (computePath_id_state o s _).1
  · rw [(computePath_id_state o s _).2]
    dsimp only
    split <;> (intro hc; exact absurd hc (by simp))

theorem spawnOneAgent_WF (o : MathO) (s : EngineState) (h : engineWF s) :
    engineWF (spawnOneAgent o s) := by
  obtain ⟨a, haid, hane, hA, hE, hQ, hS, hN⟩ := spawnOneAgent_effects o s
  have hcount := h.1
  have hqok := h.2.1
  have huniq := h.2.2.1
  have hbound := h.2.2.2.1
  have hnd := h.2.2.2.2.1
  have hlt := h.2.2.2.2.2
  refine ⟨?_, ?_, ?_, ?_, ?_, ?_⟩
  · unfold countEqInv
    rw [hA, hE, hS, List.filter_append, List.length_append]
    have h1 : List.filter (fun x : Agent => decide (x.state ≠ AgentState.exited)) [a]
        = [a] := by
      rw [List.filter_singleton, decide_eq_true hane]
      rfl
    rw [h1]
    unfold countEqInv at hcount
    simp only [List.length_singleton]
    omega
  · intro p hp id hid b hb hbid
    rw [hQ] at hp
    rw [hA] at hb
    rcases List.mem_append.mp hb with hb | hb
    · exact hqok p hp id hid b hb hbid
    · exfalso
      have hba : b = a := by simpa using hb
      have : id < s.nextId := hbound p hp id hid
      rw [← hbid, hba, haid] at this
      omega
  · intro p hp id hid
    rw [hQ] at hp ⊢
    exact huniq p hp id hid
  · intro p hp id hid
    rw [hQ] at hp
    rw [hN]
    have := hbound p hp id hid
    omega
  · rw [hA, List.map_append]
    rw [List.nodup_append]
    refine ⟨hnd, by simp, ?_⟩
    intro x hx
    have hxlt : x < s.nextId := by
      obtain ⟨b, hbmem, hbe⟩ := List.mem_map.mp hx
      rw [← hbe]
      exact hlt b hbmem
    simp only [List.map_cons, List.map_nil]
    intro hc
    rw [List.mem_singleton.mp hc, haid] at hxlt
    omega
  · intro b hb
    rw [hA] at hb
    rw [hN]
    rcases List.mem_append.mp hb with hb | hb
    · have := hlt b hb
      omega
    · have hba : b = a := by simpa using hb
      rw [hba, haid]
      omega

theorem spawnAgents_WF (o : MathO) (s : EngineState) (h : engineWF s) :
    engineWF (spawnAgents o s) := by
  unfold spawnAgents
  split
  · exact h
  · dsimp only
    refine foldl_preserve engineWF _ ?_ _ s h
    intro t x ht
    dsimp only
    split
    · exact spawnOneAgent_WF o t ht
    · exact ht

end spawnWF

section queuesWF

theorem processQueues_WF (s : EngineState) (h : engineWF s) :
    engineWF (processQueues s) := by
  unfold processQueues
  refine foldl_preserve engineWF _ ?_ _ s h
  intro t att ht
  have hnd := ht.2.2.2.2.1
  have hlt := ht.2.2.2.2.2
  dsimp only
  split
  · exact ht
  split
  · exact ht
  rename_i q hq
  split
  · exact ht
  rename_i nid rest
  split
  rotate_left
  · exact ht
  rename_i hserved
  -- the served branch: shift the queue head into service
  have hentry : (att.id, nid :: rest) ∈ t.queues := alGet_mem _ _ _ hq
  have hcnt : queueCount t.queues nid ≤ 1 :=
    ht.2.2.1 _ hentry nid (List.mem_cons_self _ _)
  have hcnt1 : 1 ≤ queueCount t.queues nid :=
    queueCount_pos _ _ _ hentry (List.mem_cons_self _ _)
  have hsum : queueCount (alSet t.queues att.id rest) nid +
      (nid :: rest).count nid = queueCount t.queues nid + rest.count nid :=
    alSet_sum_count nid t.queues att.id rest _ hq
  have hccons : (nid :: rest).count nid = rest.count nid + 1 := by
    simp only [List.count_cons]
    simp
  have hzero : queueCount (alSet t.queues att.id rest) nid = 0 := by omega
  have hWF1 : engineWF { t with queues := alSet t.queues att.id rest } := by
    refine ⟨ht.1, ?_, ?_, ?_, ht.2.2.2.2⟩
    · intro p hp id hid b hb hbid
      rcases mem_alSet _ _ _ _ hp with hp2 | hp2
      · exact ht.2.1 p hp2 id hid b hb hbid
      · rw [hp2] at hid
        exact ht.2.1 _ hentry id (List.mem_cons_of_mem _ hid) b hb hbid
    · intro p hp id hid
      show queueCount (alSet t.queues att.id rest) id ≤ 1
      have hs2 : queueCount (alSet t.queues att.id rest) id +
          (nid :: rest).count id = queueCount t.queues id + rest.count id :=
        alSet_sum_count id t.queues att.id rest _ hq
      have hcc : rest.count id ≤ (nid :: rest).count id := by
        simp only [List.count_cons]
        omega
      rcases mem_alSet _ _ _ _ hp with hp2 | hp2
      · have := ht.2.2.1 p hp2 id hid
        omega
      · rw [hp2] at hid
        have := ht.2.2.1 _ hentry id (List.mem_cons_of_mem _ hid)
        omega
    · intro p hp id hid
      rcases mem_alSet _ _ _ _ hp with hp2 | hp2
      · exact ht.2.2.2.1 p hp2 id hid
      · rw [hp2] at hid
        exact ht.2.2.2.1 _ hentry id (List.mem_cons_of_mem _ hid)
  split
  · exact hWF1
  rename_i ag heq
  unfold agentById at heq
  have hagmem : ag ∈ t.agents := List.mem_of_find?_eq_some heq
  have hagid : ag.id = nid := by
    have hp := List.find?_some heq
    simpa using hp
  have hagqu : ag.state = .queuing :=
    ht.2.1 _ hentry nid (List.mem_cons_self _ _) ag hagmem hagid
  refine ⟨?_, ?_, hWF1.2.2.1, hWF1.2.2.2.1, ?_, ?_⟩
  · -- countEqInv
    unfold countEqInv
    dsimp only
    rw [filter_length_updateAgentInList _ _ t.agents nid ?_]
    · exact ht.1
    · intro b hb hbid
      have hbqu : b.state = .queuing :=
        ht.2.1 _ hentry nid (List.mem_cons_self _ _) b hb hbid
      rw [hbqu]
      rfl
  · -- queueOKInv
    unfold queueOKInv
    dsimp only
    intro p hp id hid b hb hbid
    have hid_ne : id ≠ nid := by
      intro he
      rw [he] at hid
      exact not_mem_of_queueCount_zero _ p nid hp hzero hid
    rcases updateAgentInList_cases
      { ag with state := AgentState.at_attractor,
                atAttractorUntil := t.simTime + att.serviceTime }
      t.agents nid hagid hnd b hb with hbc | hbc
    · exfalso
      apply hid_ne
      rw [← hbid, hbc]
      exact hagid
    · rcases mem_alSet _ _ _ _ hp with hp2 | hp2
      · exact ht.2.1 p hp2 id hid b hbc.1 hbid
      · rw [hp2] at hid
        exact ht.2.1 _ hentry id (List.mem_cons_of_mem _ hid) b hbc.1 hbid
  · -- ids Nodup
    rw [map_id_updateAgentInList
      { ag with state := AgentState.at_attractor,
                atAttractorUntil := t.simTime + att.serviceTime }
      t.agents nid hagid]
    exact hnd
  · -- id bound
    intro b hb
    rcases updateAgentInList_cases
      { ag with state := AgentState.at_attractor,
                atAttractorUntil := t.simTime + att.serviceTime }
      t.agents nid hagid hnd b hb with hbc | hbc
    · show b.id < t.nextId
      rw [hbc]
      exact hlt ag hagmem
    · exact hlt b hbc.1

end queuesWF

section updateWF

theorem ite_one_eq (b : Bool) (hb : b = true) :
    (if b = true then (1 : ℕ) else 0) = 1 := by rw [hb]; rfl

theorem ite_zero_eq (b : Bool) (hb : b = false) :
    (if b = true then (1 : ℕ) else 0) = 0 := by rw [hb]; rfl

theorem updateAgentsPhase_WF (o : MathO) (hsh : SpatialHash) (dt : ℚ)
    (s : EngineState) (h : engineWF s) : engineWF (updateAgentsPhase o hsh dt s) := by
  unfold updateAgentsPhase
  refine foldl_preserve engineWF _ ?_ _ s h
  intro t i ht
  have hnd := ht.2.2.2.2.1
  have hlt := ht.2.2.2.2.2
  have hcEq : (List.filter (fun x : Agent => decide (x.state ≠ AgentState.exited))
      t.agents).length + t.egressTimes.length = t.spawnedCount := ht.1
  dsimp only
  split
  · exact ht
  rename_i a hget
  split
  · exact ht
  rename_i hane
  have hane' : ¬ a.state = AgentState.exited := by simpa using hane
  obtain ⟨hid, hA, hS, hN, hcase⟩ := updateAgent_effects o hsh dt t a hane'
  obtain ⟨r1, r2, hr⟩ : ∃ r1 r2, updateAgent o hsh dt t a = (r1, r2) :=
    ⟨(updateAgent o hsh dt t a).1, (updateAgent o hsh dt t a).2, rfl⟩
  rw [hr] at hid hA hS hN hcase ⊢
  dsimp only at hid hA hS hN hcase ⊢
  have hamem : a ∈ t.agents := List.get?_mem hget
  have hget' : r2.agents.get? i = some a := by rw [hA]; exact hget
  have hnd2 : (List.map (fun x : Agent => x.id) r2.agents).Nodup := by
    rw [hA]; exact hnd
  have hmemc := setNth_agents_cases r1 r2.agents i a hget' hnd2
  have hfs := filter_length_setNth
    (fun x : Agent => decide (x.state ≠ AgentState.exited)) r1 r2.agents i a hget'
  have hmap : (setNth r2.agents i r1).map (fun x : Agent => x.id) =
      t.agents.map (fun x : Agent => x.id) := by
    rw [map_setNth]
    have hg2 : (List.map (fun x : Agent => x.id) r2.agents).get? i = some a.id := by
      rw [List.get?_map, hget']
      rfl
    have hss := setNth_get_self (List.map (fun x : Agent => x.id) r2.agents) i a.id hg2
    calc setNth (List.map (fun x : Agent => x.id) r2.agents) i r1.id
        = setNth (List.map (fun x : Agent => x.id) r2.agents) i a.id := by rw [hid]
      _ = List.map (fun x : Agent => x.id) r2.agents := hss
      _ = List.map (fun x : Agent => x.id) t.agents := by rw [hA]
  have hlt2 : ∀ b ∈ setNth r2.agents i r1, b.id < t.nextId := by
    intro b hb
    rcases hmemc b hb with hbc | hbc
    · rw [hbc, hid]
      exact hlt a hamem
    · obtain ⟨hbm, _⟩ := hbc
      rw [hA] at hbm
      exact hlt b hbm
  have hpa : decide (a.state ≠ AgentState.exited) = true :=
    decide_eq_true hane'
  rcases hcase with ⟨hq, heg, hne, hqimp⟩ | ⟨hq, ⟨tt, heg⟩, hst, hnq⟩ |
    ⟨hsa, heg, hst, k, hq⟩
  · -- stays non-exited, no queue/egress change
    have hpr : decide (r1.state ≠ AgentState.exited) = true :=
      decide_eq_true hne
    refine ⟨?_, ?_, ?_, ?_, ?_, ?_⟩
    · show (List.filter (fun x : Agent => decide (x.state ≠ AgentState.exited))
          (setNth r2.agents i r1)).length + r2.egressTimes.length
          = r2.spawnedCount
      rw [heg, hS, hA]
      rw [hA, ite_one_eq _ hpa, ite_one_eq _ hpr] at hfs
      omega
    · intro p hp id hidq b hb hbid
      dsimp only at hp hb ⊢
      rw [hq] at hp
      rcases hmemc b hb with hbc | hbc
      · have haid_eq : a.id = id := by rw [← hbid, hbc, hid]
        have haqu := ht.2.1 p hp id hidq a hamem haid_eq
        rw [hbc]
        exact hqimp haqu
      · obtain ⟨hbm, _⟩ := hbc
        rw [hA] at hbm
        exact ht.2.1 p hp id hidq b hbm hbid
    · intro p hp id hidq
      dsimp only at hp ⊢
      rw [hq] at hp ⊢
      exact ht.2.2.1 p hp id hidq
    · intro p hp id hidq
      dsimp only at hp ⊢
      rw [hq] at hp
      rw [hN]
      exact ht.2.2.2.1 p hp id hidq
    · show ((setNth r2.agents i r1).map (fun x : Agent => x.id)).Nodup
      rw [hmap]
      exact hnd
    · intro b hb
      dsimp only at hb ⊢
      rw [hN]
      exact hlt2 b hb
  · -- the agent exits: one egress time appended
    have hpr : decide (r1.state ≠ AgentState.exited) = false := by
      rw [hst]
      simp
    refine ⟨?_, ?_, ?_, ?_, ?_, ?_⟩
    · show (List.filter (fun x : Agent => decide (x.state ≠ AgentState.exited))
          (setNth r2.agents i r1)).length + r2.egressTimes.length
          = r2.spawnedCount
      rw [heg, hS, hA]
      rw [hA, ite_one_eq _ hpa, ite_zero_eq _ hpr] at hfs
      simp only [List.length_append, List.length_singleton]
      omega
    · intro p hp id hidq b hb hbid
      dsimp only at hp hb ⊢
      rw [hq] at hp
      rcases hmemc b hb with hbc | hbc
      · exfalso
        have haid_eq : a.id = id := by rw [← hbid, hbc, hid]
        exact hnq (ht.2.1 p hp id hidq a hamem haid_eq)
      · obtain ⟨hbm, _⟩ := hbc
        rw [hA] at hbm
        exact ht.2.1 p hp id hidq b hbm hbid
    · intro p hp id hidq
      dsimp only at hp ⊢
      rw [hq] at hp ⊢
      exact ht.2.2.1 p hp id hidq
    · intro p hp id hidq
      dsimp only at hp ⊢
      rw [hq] at hp
      rw [hN]
      exact ht.2.2.2.1 p hp id hidq
    · show ((setNth r2.agents i r1).map (fun x : Agent => x.id)).Nodup
      rw [hmap]
      exact hnd
    · intro b hb
      dsimp only at hb ⊢
      rw [hN]
      exact hlt2 b hb
  · -- the agent joins a queue
    have hnotin : ∀ p ∈ t.queues, a.id ∉ p.2 := by
      intro p hp hain
      have := ht.2.1 p hp a.id hain a hamem rfl
      rw [hsa] at this
      exact absurd this (by simp)
    have hpr : decide (r1.state ≠ AgentState.exited) = true := by
      apply decide_eq_true
      rw [hst]
      simp
    obtain ⟨q0', hq', hanchor, hnotq0, hsumx⟩ :
        ∃ q0', r2.queues = alSet t.queues k (q0' ++ [a.id]) ∧
          (∀ x ∈ q0', ∃ p, p ∈ t.queues ∧ x ∈ p.2) ∧
          a.id ∉ q0' ∧
          (∀ x : ℕ, queueCount (alSet t.queues k (q0' ++ [a.id])) x =
            queueCount t.queues x + List.count x [a.id]) := by
      rcases halget : alGet t.queues k with _ | q0
      · refine ⟨[], ?_, by simp, by simp, ?_⟩
        · rw [hq, halget]
          simp
        · intro x
          have hh := alSet_sum_count_none x t.queues k ([] ++ [a.id]) halget
          unfold queueCount
          rw [hh]
          simp
      · have hkq0 : (k, q0) ∈ t.queues := alGet_mem _ _ _ halget
        have hnq0 : a.id ∉ q0 := hnotin _ hkq0
        refine ⟨q0, ?_, ?_, hnq0, ?_⟩
        · rw [hq, halget]
          simp only [Option.getD_some]
          rw [if_neg]
          simpa using hnq0
        · intro x hx
          exact ⟨(k, q0), hkq0, hx⟩
        · intro x
          have h1 := alSet_sum_count x t.queues k (q0 ++ [a.id]) q0 halget
          have h2 : List.count x (q0 ++ [a.id]) =
              List.count x q0 + List.count x [a.id] := by
            rw [List.count_append]
          unfold queueCount at h1 ⊢
          omega
    refine ⟨?_, ?_, ?_, ?_, ?_, ?_⟩
    · show (List.filter (fun x : Agent => decide (x.state ≠ AgentState.exited))
          (setNth r2.agents i r1)).length + r2.egressTimes.length
          = r2.spawnedCount
      rw [heg, hS, hA]
      rw [hA, ite_one_eq _ hpa, ite_one_eq _ hpr] at hfs
      omega
    · intro p hp id hidq b hb hbid
      dsimp only at hp hb ⊢
      rw [hq'] at hp
      rcases mem_alSet _ _ _ _ hp with hp2 | hp2
      · rcases hmemc b hb with hbc | hbc
        · exfalso
          have haid_eq : a.id = id := by rw [← hbid, hbc, hid]
          rw [haid_eq] at hnotin
          exact hnotin p hp2 hidq
        · obtain ⟨hbm, _⟩ := hbc
          rw [hA] at hbm
          exact ht.2.1 p hp2 id hidq b hbm hbid
      · rw [hp2] at hidq
        rcases List.mem_append.mp hidq with hq0 | hq0
        · obtain ⟨p2, hp2m, hid2⟩ := hanchor id hq0
          rcases hmemc b hb with hbc | hbc
          · exfalso
            have haid_eq : a.id = id := by rw [← hbid, hbc, hid]
            rw [haid_eq] at hnotq0
            exact hnotq0 hq0
          · obtain ⟨hbm, _⟩ := hbc
            rw [hA] at hbm
            exact ht.2.1 p2 hp2m id hid2 b hbm hbid
        · have hida : id = a.id := by simpa using hq0
          rcases hmemc b hb with hbc | hbc
          · rw [hbc]
            exact hst
          · exfalso
            obtain ⟨_, hbne⟩ := hbc
            rw [hida] at hbid
            exact hbne hbid
    · intro p hp id hidq
      dsimp only at hp ⊢
      rw [hq'] at hp ⊢
      rw [hsumx id]
      by_cases hida : id = a.id
      · have hz : queueCount t.queues a.id = 0 :=
          queueCount_eq_zero t.queues a.id hnotin
        rw [hida, hz]
        simp
      · have hz : List.count id [a.id] = 0 :=
          List.count_eq_zero.mpr (by simpa using hida)
        rw [hz]
        rcases mem_alSet _ _ _ _ hp with hp2 | hp2
        · have := ht.2.2.1 p hp2 id hidq
          omega
        · rw [hp2] at hidq
          rcases List.mem_append.mp hidq with hq0 | hq0
          · obtain ⟨p2, hp2m, hid2⟩ := hanchor id hq0
            have := ht.2.2.1 p2 hp2m id hid2
            omega
          · exfalso
            exact hida (by simpa using hq0)
    · intro p hp id hidq
      dsimp only at hp ⊢
      rw [hq'] at hp
      rw [hN]
      rcases mem_alSet _ _ _ _ hp with hp2 | hp2
      · exact ht.2.2.2.1 p hp2 id hidq
      · rw [hp2] at hidq
        rcases List.mem_append.mp hidq with hq0 | hq0
        · obtain ⟨p2, hp2m, hid2⟩ := hanchor id hq0
          exact ht.2.2.2.1 p2 hp2m id hid2
        · have hida : id = a.id := by simpa using hq0
          rw [hida]
          exact hlt a hamem
    · show ((setNth r2.agents i r1).map (fun x : Agent => x.id)).Nodup
      rw [hmap]
      exact hnd
    · intro b hb
      dsimp only at hb ⊢
      rw [hN]
      exact hlt2 b hb

end updateWF

section tickWF

theorem tickPreMetrics_WF (o : MathO) (dt : ℚ) (s : EngineState)
    (h : engineWF s) : engineWF (tickPreMetrics o dt s) := by
  unfold tickPreMetrics
  dsimp only
  apply processQueues_WF
  apply updateAgentsPhase_WF
  apply spawnAgents_WF
  exact engineWF_of_book (tickFirefighters_book o dt _)
    (engineWF_of_book (fireSmokePhase_book dt _) (evacCheckPhase_WF o s h))

theorem tick_WF (o : MathO) (dt0 : ℚ) (s : EngineState) (h : engineWF s) :
    engineWF (tick o dt0 s) := by
  unfold tick
  split
  · exact h
  dsimp only
  refine engineWF_of_book ?_
    (engineWF_of_book
      (densityMetricsPhase_book (min dt0 0.05) (tickPreMetrics o (min dt0 0.05) s))
      (tickPreMetrics_WF o (min dt0 0.05) s h))
  rfl

theorem alSet_fold_nil_values :
    ∀ (atts : List Attractor) (m : List (String × List ℕ)),
    (∀ p ∈ m, p.2 = ([] : List ℕ)) →
    ∀ p ∈ atts.foldl (fun m a => alSet m a.id ([] : List ℕ)) m, p.2 = []
  | [], m => fun hm p hp => hm p hp
  | att :: rest, m => by
    intro hm p hp
    rw [List.foldl_cons] at hp
    refine alSet_fold_nil_values rest _ ?_ p hp
    intro q hq
    rcases mem_alSet _ _ _ _ hq with hq2 | hq2
    · exact hm q hq2
    · rw [hq2]

theorem reset_WF (s : EngineState) : engineWF (reset s) := by
  have hA : (reset s).agents = [] := rfl
  have hE : (reset s).egressTimes = [] := rfl
  have hS : (reset s).spawnedCount = 0 := rfl
  have hQ : (reset s).queues =
      s.layout.attractors.foldl (fun m a => alSet m a.id []) [] := rfl
  have hq0 : ∀ p ∈ (reset s).queues, p.2 = ([] : List ℕ) := by
    rw [hQ]
    exact alSet_fold_nil_values s.layout.attractors []
      (by intro p hp; simp at hp)
  refine ⟨?_, ?_, ?_, ?_, ?_, ?_⟩
  · unfold countEqInv
    rw [hA, hE, hS]
    rfl
  · intro p hp id hid b hb hbid
    rw [hq0 p hp] at hid
    simp at hid
  · intro p hp id hid
    rw [hq0 p hp] at hid
    simp at hid
  · intro p hp id hid
    rw [hq0 p hp] at hid
    simp at hid
  · rw [hA]
    simp
  · intro b hb
    rw [hA] at hb
    simp at hb

/-- C7: the spawn-count invariant.  `reset` establishes the engine's
book-keeping well-formedness, every tick preserves it, and under it the
number of non-exited agents plus the number of recorded egress times
equals the total number of agents spawned so far. -/
theorem C7_tick_count_invariant :
    (∀ s : EngineState, engineWF (reset s)) ∧
    (∀ (o : MathO) (dt0 : ℚ) (s : EngineState), engineWF s →
      engineWF (tick o dt0 s) ∧
      ((tick o dt0 s).agents.filter (fun a => a.state ≠ AgentState.exited)).length
        + (tick o dt0 s).egressTimes.length = (tick o dt0 s).spawnedCount) := by
  refine ⟨reset_WF, ?_⟩
  intro o dt0 s h
  exact ⟨tick_WF o dt0 s h, (tick_WF o dt0 s h).1⟩

end tickWF

/-- C1: `triggerEvacuation` sets the evacuating flag, removes every
transitioning agent's id from the queue maps, and rebuilds each agent
with `evacAgentStep`: agents in `at_attractor`, `seeking_attractor` or
`queuing` clear their attractor target, enter `evacuating`, re-plan to
the nearest open exit and get their speed multiplied by
`panicSpeedMultiplier` — but (correcting the claim) agents already in
`seeking_exit` or `evacuating` keep their state and only get the speed
multiplier, and `exited` agents are untouched. -/
theorem C1_triggerEvacuation_effects (o : MathO) (s : EngineState) (a : Agent) :
    (triggerEvacuation o s).isEvacuating = true ∧
    (triggerEvacuation o s).agents =
      s.agents.map (evacAgentStep o { s with isEvacuating := true }) ∧
    (triggerEvacuation o s).queues =
      (s.agents.filter (fun x => decide (evacTransitions x))).foldl
        (fun qs x => removeFromAllQueues qs x.id) s.queues ∧
    (a.state = .exited → evacAgentStep o { s with isEvacuating := true } a = a) ∧
    (evacTransitions a →
      (evacAgentStep o { s with isEvacuating := true } a).state = .evacuating ∧
      (evacAgentStep o { s with isEvacuating := true } a).targetAttractorId = none ∧
      (evacAgentStep o { s with isEvacuating := true } a).speed =
        a.speed * s.cfg.panicSpeedMultiplier ∧
      (evacAgentStep o { s with isEvacuating := true } a).pathIndex = 0 ∧
      (evacAgentStep o { s with isEvacuating := true } a).path =
        astar o s.passable ⟨a.x, a.y⟩
          (nearestExitPos { s with isEvacuating := true }
            { a with state := .evacuating, targetAttractorId := none }).1 1) ∧
    ((a.state = .seeking_exit ∨ a.state = .evacuating) →
      evacAgentStep o { s with isEvacuating := true } a =
        { a with speed := a.speed * s.cfg.panicSpeedMultiplier }) := by
  obtain ⟨h1, h2, h3⟩ := triggerEvacuation_parts o s
  refine ⟨h1, h2, h3, ?_, ?_, ?_⟩
  · intro hex
    exact evacAgentStep_exited o _ a hex
  · intro htr
    exact evacAgentStep_transitioned o _ a htr
  · intro hst
    exact evacAgentStep_not_transitioned o _ a hst

/-- C1 witness: the seeking-exit agent `agC1` only gets the speed
multiplier when evacuation is triggered on `eC1`. -/
theorem C1_witness :
    (agC1.state = .seeking_exit ∨ agC1.state = .evacuating) ∧
    evacAgentStep o0 { eC1 with isEvacuating := true } agC1 =
      { agC1 with speed := agC1.speed * eC1.cfg.panicSpeedMultiplier } :=
  ⟨Or.inl (by with_unfolding_all decide),
   (C1_triggerEvacuation_effects o0 eC1 agC1).2.2.2.2.2
     (Or.inl (by with_unfolding_all decide))⟩

/-- C1 counterexample to the claim as stated: after triggering
evacuation on `eC1`, its non-exited agent is still `seeking_exit`, not
`evacuating`. -/
theorem C1_counterexample :
    agC1.state ≠ .exited ∧
    (triggerEvacuation o0 eC1).isEvacuating = true ∧
    (∃ b ∈ (triggerEvacuation o0 eC1).agents, b.id = agC1.id ∧
      b.state = .seeking_exit ∧ b.state ≠ .evacuating) := by
  with_unfolding_all decide

/-- C2: reproducibility evidence.  Two oracles that agree on every
deterministic math function and differ only in the ambient
`Math.random` stream drive `spawnOneAgent` to different agent lists
from the same engine state (same layout, same config): the kernel's
stochastic decisions read the ambient stream, and `SimConfig` carries
no seed to pin it. -/
theorem C2_ambient_randomness :
    o2.sqrt = o0.sqrt ∧ o2.exp = o0.exp ∧ o2.log = o0.log ∧ o2.cos = o0.cos ∧
    o2.pi = o0.pi ∧ o2.sqrt2 = o0.sqrt2 ∧ o2.fuel = o0.fuel ∧
    (spawnOneAgent o0 eSpawn).agents ≠ (spawnOneAgent o2 eSpawn).agents := by
  refine ⟨rfl, rfl, rfl, rfl, rfl, rfl, rfl, ?_⟩
  with_unfolding_all decide

/-- C3: the A* planner's returned path always ends exactly at the goal
world point and is never empty — also (correcting the claim) when the
start cell equals the goal cell, where the source returns `[goal]`. -/
theorem C3_astar_goal (o : MathO) (p : List (List Bool)) (sW gW : Vec2) (cs : ℚ) :
    (astar o p sW gW cs).getLast? = some gW ∧ astar o p sW gW cs ≠ [] := by
  refine ⟨astar_last o p sW gW cs, ?_⟩
  intro hc
  have hlast := astar_last o p sW gW cs
  rw [hc] at hlast
  simp at hlast

/-- C3 counterexample to the claim as stated: with start and goal in
the same cell the planner returns `[goal]`, not the empty path. -/
theorem C3_counterexample :
    astar o0 grid2 ⟨1/2, 1/2⟩ ⟨1/2, 1/2⟩ 1 = [⟨1/2, 1/2⟩] ∧
    astar o0 grid2 ⟨1/2, 1/2⟩ ⟨1/2, 1/2⟩ 1 ≠ [] := by
  with_unfolding_all decide

/-- C4: goal-repair bug evidence.  On `grid7` the goal cell (3,3) is
blocked; the window's passable cells are (0,0) at squared distance 18
and (3,4) at squared distance 1, yet the repair loop returns the
first-scanned (0,0) — its `!found` guard stops at the first passable
cell in row-major order instead of minimising the distance. -/
theorem C4_goal_repair_first_hit :
    bcell grid7 3 3 = false ∧ bcell grid7 0 0 = true ∧ bcell grid7 3 4 = true ∧
    repairGoal grid7 7 7 3 3 = (0, 0) ∧
    ((3 : ℤ) - 3) * (3 - 3) + ((4 : ℤ) - 3) * (4 - 3) <
      ((0 : ℤ) - 3) * (0 - 3) + ((0 : ℤ) - 3) * (0 - 3) := by
  with_unfolding_all decide

/-- C5 witness: the sweep on the small venue with a zero-tick config
records exactly `resW`, and the theorem yields its `passed` equation. -/
theorem C5_witness :
    resW ∈ runSweep o0 layoutS cfgW 0 ∧
    resW.passed =
      (decide (resW.peakDensity ≤ cfgW.densityDanger) &&
       decide (resW.p95EgressTime ≤ cfgW.egresTimeLimitMin) &&
       decide (resW.timeAboveWarningPct ≤ cfgW.warningTimeLimitPct)) :=
  ⟨by with_unfolding_all decide,
   C5_runSweep_passed o0 layoutS cfgW 0 resW (by with_unfolding_all decide)⟩

/-- C6 witness: ticking the burning engine `eC6` restores the
fire-to-smoke coupling. -/
theorem C6_witness :
    eC6.isRunning = true ∧
    ¬ eC6.fireCellCount ≤ 0 ∧
    fireSmokeInv (tick o0 (1/20) eC6) :=
  ⟨by with_unfolding_all decide,
   by with_unfolding_all decide,
   C6_tick_fire_smoke o0 eC6 (1/20) (by with_unfolding_all decide)
     (fun hc => absurd hc (by with_unfolding_all decide))⟩

/-- C6 counterexample to the claim as stated over every public
operation: right after `startFire`, cell (5,5) burns with zero smoke. -/
theorem C6_counterexample :
    bcell eC6.fireGrid 5 5 = true ∧ qcell eC6.smokeGrid 5 5 = 0 := by
  with_unfolding_all decide

/-- C7 witness: the invariant theorem applied to the concrete
well-formed state `eC9`. -/
theorem C7_witness :
    engineWF eC9 ∧
    (engineWF (tick o0 (1/20) eC9) ∧
      ((tick o0 (1/20) eC9).agents.filter
          (fun a => a.state ≠ AgentState.exited)).length
        + (tick o0 (1/20) eC9).egressTimes.length
        = (tick o0 (1/20) eC9).spawnedCount) :=
  ⟨by with_unfolding_all decide,
   C7_tick_count_invariant.2 o0 (1/20) eC9 (by with_unfolding_all decide)⟩

/-- C8: the position integration clamps an agent into
`[radius, dim − radius]` on both axes, and the wall push-out keeps it
there — (correcting the claim) provided every wall keeps a two-radius
margin inside the venue border; a wall touching the border can eject
the agent beyond the bounds. -/
theorem C8_motion_bounds (walls : List Wall) (width height dt : ℚ) (a : Agent)
    (hrad : 0 ≤ a.radius) (hw : 2 * a.radius ≤ width) (hh : 2 * a.radius ≤ height)
    (hm : ∀ w ∈ walls, wallMargin width height a.radius w) :
    (a.radius ≤ (resolveWallCollisions walls (integratePosition width height dt a)).x ∧
      (resolveWallCollisions walls (integratePosition width height dt a)).x ≤
        width - a.radius) ∧
    (a.radius ≤ (resolveWallCollisions walls (integratePosition width height dt a)).y ∧
      (resolveWallCollisions walls (integratePosition width height dt a)).y ≤
        height - a.radius) := by
  obtain ⟨hbx, hby, hbr⟩ := integratePosition_bounds width height dt a hw hh
  have hres := resolveWallCollisions_bounds walls width height
    (integratePosition width height dt a) (by rw [hbr]; exact hrad)
    (by rw [hbr]; exact hm) (by rw [hbr]; exact hbx) (by rw [hbr]; exact hby)
  rw [hbr] at hres
  exact ⟨hres.1, hres.2.1⟩

/-- C8 witness: the bounds hold for `aC8` against the interior wall
`wallIn` in the 10×10 venue. -/
theorem C8_witness :
    (0 ≤ aC8.radius ∧ 2 * aC8.radius ≤ 10 ∧
      (∀ w ∈ [wallIn], wallMargin 10 10 aC8.radius w)) ∧
    ((aC8.radius ≤
        (resolveWallCollisions [wallIn] (integratePosition 10 10 (1/20) aC8)).x ∧
      (resolveWallCollisions [wallIn] (integratePosition 10 10 (1/20) aC8)).x ≤
        10 - aC8.radius) ∧
     (aC8.radius ≤
        (resolveWallCollisions [wallIn] (integratePosition 10 10 (1/20) aC8)).y ∧
      (resolveWallCollisions [wallIn] (integratePosition 10 10 (1/20) aC8)).y ≤
        10 - aC8.radius)) :=
  ⟨⟨by with_unfolding_all decide, by with_unfolding_all decide,
    by with_unfolding_all decide⟩,
   C8_motion_bounds [wallIn] 10 10 (1/20) aC8 (by with_unfolding_all decide)
     (by with_unfolding_all decide) (by with_unfolding_all decide)
     (by with_unfolding_all decide)⟩

/-- C8 counterexample to the claim as stated: the border wall `wallC8`
pushes `aC8` from the in-bounds position x = 39/4 out to x = 41/4,
beyond `width − radius` of the 10-wide venue. -/
theorem C8_counterexample :
    aC8.radius ≤ aC8.x ∧ aC8.x ≤ 10 - aC8.radius ∧
    (resolveWallCollisions [wallC8] aC8).x = 41/4 ∧
    ¬ (resolveWallCollisions [wallC8] aC8).x ≤ 10 - aC8.radius := by
  with_unfolding_all decide

/-- C9 witness: the dwell equations of the theorem at the concrete
running state `eC9`. -/
theorem C9_witness :
    eC9.isRunning = true ∧ 0 ≤ eC9.cfg.densityWarning ∧
    0 ≤ eC9.cfg.densityDanger ∧
    ((tick o0 (1/20) eC9).timeAboveWarning =
      if ∃ row ∈ computeDensityGrid (tickPreMetrics o0 (min (1/20) 0.05) eC9),
          ∃ v ∈ row, v > eC9.cfg.densityWarning
      then eC9.timeAboveWarning + min (1/20) 0.05 else eC9.timeAboveWarning) ∧
    ((tick o0 (1/20) eC9).timeAboveDanger =
      if ∃ row ∈ computeDensityGrid (tickPreMetrics o0 (min (1/20) 0.05) eC9),
          ∃ v ∈ row, v > eC9.cfg.densityDanger
      then eC9.timeAboveDanger + min (1/20) 0.05 else eC9.timeAboveDanger) :=
  ⟨by with_unfolding_all decide, by with_unfolding_all decide,
   by with_unfolding_all decide,
   (C9_tick_dwell_strict o0 eC9 (1/20) (by with_unfolding_all decide)
     (by with_unfolding_all decide) (by with_unfolding_all decide)).1,
   (C9_tick_dwell_strict o0 eC9 (1/20) (by with_unfolding_all decide)
     (by with_unfolding_all decide) (by with_unfolding_all decide)).2⟩

/-- C9 counterexample to the claim as stated: on `eC9` the maximal
density cell EQUALS the warning threshold, and `timeAboveWarning` does
not advance — the source's comparison is strict. -/
theorem C9_counterexample :
    maxOfGrid (computeDensityGrid (tickPreMetrics o0 (1/20) eC9)) =
      eC9.cfg.densityWarning ∧
    (tick o0 (1/20) eC9).timeAboveWarning = eC9.timeAboveWarning := by
  with_unfolding_all decide

/-- C10 witness: `startFire` at (−1, −1) on the running engine `eFire`
is a no-op. -/
theorem C10_witness :
    (⌊(-1 : ℚ)⌋ < 0 ∨ (eFire.fireRows : ℤ) ≤ ⌊(-1 : ℚ)⌋ ∨ ⌊(-1 : ℚ)⌋ < 0 ∨
      (eFire.fireCols : ℤ) ≤ ⌊(-1 : ℚ)⌋ ∨
      bcell eFire.passable ⌊(-1 : ℚ)⌋.toNat ⌊(-1 : ℚ)⌋.toNat = false) ∧
    startFire o0 eFire (-1) (-1) = eFire :=
  ⟨by with_unfolding_all decide,
   C10_startFire_noop o0 eFire (-1) (-1) (by with_unfolding_all decide)⟩
